import Mathlib

/-!
# Connection pool of `pkg/pool/pool.go`: shallow embedding and verified properties

The embedding follows `src/pkg/pool/pool.go` function by function.

* `sync.Map` (`conns`) is an association list with the four operations the code
  uses (`Load`, `Store`, `Delete`, `LoadAndDelete`); `Store` replaces an existing
  binding, the delete operations remove the binding of the key.
* The buffered channel `idChan` is a FIFO buffer together with its capacity;
  `select { case ch <- id: ... default: ... }` is `Chan.trySend`.
* Go `int` and `time.Duration` are 64-bit, `atomic.Int32` is 32-bit: the stores
  and additions wrap explicitly (`wrap32`, `wrap64`).
* `float64` arithmetic of the two adjusters is computed exactly (round to
  nearest, ties to even, 53-bit significand) on natural numbers.
* Everything the network decides (dial result, handshake result, bytes read,
  random bytes, write result) is an explicit environment argument.
* Every `Close()` call on a connection is recorded in the result of the
  operation that makes it.
-/

namespace NodePass

/-! ## Connections and identifiers -/

/-- A connection handle: the descriptor of the transport connection and whether
the handle is the TLS wrapper (`tls.Client` or `tls.Server`) around it.  Closing
either handle closes the descriptor. -/
structure Conn where
  fd : Nat
  tls : Bool
  deriving DecidableEq, Repr

/-- The `tls.Client(conn, ...)` or `tls.Server(conn, ...)` wrapper of a connection. -/
def Conn.wrapTLS (c : Conn) : Conn := { c with tls := true }

/-- Connection identifiers are the keys of `conns` and elements of `idChan`. -/
abbrev ID := String

/-- The four raw bytes of an identifier as they travel on the wire. -/
structure RawID where
  b0 : Fin 256
  b1 : Fin 256
  b2 : Fin 256
  b3 : Fin 256
  deriving DecidableEq, Repr

/-- The byte slice `buf` / `rawID` of length 4. -/
def RawID.bytes (r : RawID) : List (Fin 256) := [r.b0, r.b1, r.b2, r.b3]

/-- One lowercase hexadecimal digit. -/
def hexDigit (n : Nat) : Char := "0123456789abcdef".toList.getD n '0'

/-- `hex.EncodeToString`: two lowercase hex digits per byte. -/
def EncodeToString (buf : List (Fin 256)) : String :=
  String.mk (buf.flatMap fun b => [hexDigit (b.val / 16), hexDigit (b.val % 16)])

/-- The identifier string of four raw bytes. -/
def RawID.id (r : RawID) : ID := EncodeToString r.bytes

/-! ## `sync.Map` -/

/-- The connection map `conns`. -/
abbrev ConnMap := List (ID × Conn)

namespace ConnMap

/-- `conns.Load(id)`. -/
def Load (id : ID) (m : ConnMap) : Option Conn :=
  (m.find? fun kv => kv.1 == id).map Prod.snd

/-- `conns.Delete(id)`. -/
def Delete (id : ID) (m : ConnMap) : ConnMap :=
  m.filter fun kv => !(kv.1 == id)

/-- `conns.Store(id, conn)`: the binding of `id` is replaced. -/
def Store (id : ID) (c : Conn) (m : ConnMap) : ConnMap :=
  Delete id m ++ [(id, c)]

/-- `conns.LoadAndDelete(id)`: the value found (if any) and the map without the key. -/
def LoadAndDelete (id : ID) (m : ConnMap) : Option Conn × ConnMap :=
  (Load id m, Delete id m)

/-- The keys of the map. -/
def keys (m : ConnMap) : List ID := m.map Prod.fst

end ConnMap

/-! ## Buffered channel -/

/-- A buffered `chan string`: the queued elements (oldest first) and the buffer
capacity fixed by `make`. -/
structure Chan where
  buf : List ID
  cap : Nat
  deriving DecidableEq, Repr

namespace Chan

/-- `make(chan string, n)`.  Both constructors force `n >= 1` before calling
`make` and `maxCap` is never reassigned, so the size is never negative. -/
def make (n : Int) : Chan := { buf := [], cap := n.toNat }

/-- `len(ch)`. -/
def len (ch : Chan) : Nat := ch.buf.length

/-- The non-blocking send `select { case ch <- id: ... default: ... }`:
`none` is the `default` branch (buffer full). -/
def trySend (id : ID) (ch : Chan) : Option Chan :=
  if ch.buf.length < ch.cap then some { ch with buf := ch.buf ++ [id] } else none

/-- A receive `<-ch` that finds an element: the element and the remaining
channel; `none` when the buffer is empty (the receive blocks). -/
def recv (ch : Chan) : Option (ID × Chan) :=
  match ch.buf with
  | [] => none
  | id :: rest => some (id, { ch with buf := rest })

end Chan

/-! ## Machine integers -/

/-- Two's complement wrap-around to 32 bits (`int32(x)`, `atomic.Int32.Add`). -/
def wrap32 (x : Int) : Int := (x + 2 ^ 31) % 2 ^ 32 - 2 ^ 31

/-- Two's complement wrap-around to 64 bits (`int64` / `time.Duration` arithmetic). -/
def wrap64 (x : Int) : Int := (x + 2 ^ 63) % 2 ^ 64 - 2 ^ 63

/-- The value is an `int32`. -/
def InInt32 (x : Int) : Prop := -(2 ^ 31) ≤ x ∧ x < 2 ^ 31

/-- The value is an `int64` (Go `int` on 64-bit platforms, `time.Duration`). -/
def InInt64 (x : Int) : Prop := -(2 ^ 63) ≤ x ∧ x < 2 ^ 63

instance (x : Int) : Decidable (InInt32 x) := by unfold InInt32; infer_instance

instance (x : Int) : Decidable (InInt64 x) := by unfold InInt64; infer_instance

/-! ## Constants -/

/-- `defaultMinCap`. -/
def defaultMinCap : Int := 1

/-- `defaultMaxCap`. -/
def defaultMaxCap : Int := 1

/-- `defaultMinIvl = 1 * time.Second`, in nanoseconds. -/
def defaultMinIvl : Int := 1000000000

/-- `defaultMaxIvl = 1 * time.Second`, in nanoseconds. -/
def defaultMaxIvl : Int := 1000000000

/-- `intervalAdjustStep = 100 * time.Millisecond`, in nanoseconds. -/
def intervalAdjustStep : Int := 100000000

/-- One millisecond in nanoseconds. -/
def ms : Int := 1000000

/-! ## The pool -/

/-- The fields of `Pool` that the pool logic reads or writes.  `hostname`,
`keepAlive`, `dialer`, `listener`, `errCount` and the context do not influence
the map, the queue or the controller. -/
structure Pool where
  conns : ConnMap
  idChan : Chan
  tlsCode : String
  clientIP : String
  tlsConfig : Bool
  capacity : Int
  minCap : Int
  maxCap : Int
  interval : Int
  minIvl : Int
  maxIvl : Int
  deriving DecidableEq, Repr

/-- `NewClientPool`: defaults for non-positive arguments, then the swap
`minCap, maxCap = maxCap, minCap` (and likewise for the intervals) when the
minimum exceeds the maximum; `capacity.Store(int32(minCap))` and
`interval.Store(int64(minIvl))`. -/
def NewClientPool (minCap maxCap minIvl maxIvl : Int) (tlsCode : String) : Pool :=
  let minCap1 := if minCap ≤ 0 then defaultMinCap else minCap
  let maxCap1 := if maxCap ≤ 0 then defaultMaxCap else maxCap
  let minCap2 := if minCap1 > maxCap1 then maxCap1 else minCap1
  let maxCap2 := if minCap1 > maxCap1 then minCap1 else maxCap1
  let minIvl1 := if minIvl ≤ 0 then defaultMinIvl else minIvl
  let maxIvl1 := if maxIvl ≤ 0 then defaultMaxIvl else maxIvl
  let minIvl2 := if minIvl1 > maxIvl1 then maxIvl1 else minIvl1
  let maxIvl2 := if minIvl1 > maxIvl1 then minIvl1 else maxIvl1
  { conns := []
    idChan := Chan.make maxCap2
    tlsCode := tlsCode
    clientIP := ""
    tlsConfig := false
    capacity := wrap32 minCap2
    minCap := minCap2
    maxCap := maxCap2
    interval := wrap64 minIvl2
    minIvl := minIvl2
    maxIvl := maxIvl2 }

/-- `NewServerPool`; `listener` tells whether the listener argument is non-nil,
`tlsConfig` whether a TLS configuration is given.  The controller fields keep
their zero values. -/
def NewServerPool (maxCap : Int) (clientIP : String) (tlsConfig : Bool) (listener : Bool) :
    Option Pool :=
  let maxCap := if maxCap ≤ 0 then defaultMaxCap else maxCap
  if !listener then none
  else some
    { conns := []
      idChan := Chan.make maxCap
      tlsCode := ""
      clientIP := clientIP
      tlsConfig := tlsConfig
      capacity := 0
      minCap := 0
      maxCap := maxCap
      interval := 0
      minIvl := 0
      maxIvl := 0 }

/-- `Active`. -/
def Pool.Active (p : Pool) : Int := (p.idChan.len : Int)

/-- `Capacity`. -/
def Pool.Capacity (p : Pool) : Int := p.capacity

/-- `Interval`. -/
def Pool.Interval (p : Pool) : Int := p.interval

/-! ## float64 arithmetic of the adjusters

Non-negative finite doubles are written `m / 2 ^ e`.  Rounding is to nearest
with ties to even on a 53-bit significand.  The operands that occur (integers
of at most 64 bits, the constants 0.2 and 0.8, their products and quotients)
stay far from the subnormal and overflow ranges, so no exponent clamping is
needed. -/

/-- Number of binary digits, by halving (the fuel `n` is never exhausted). -/
def bitLenAux : Nat → Nat → Nat
  | 0, _ => 0
  | fuel + 1, n => if n = 0 then 0 else bitLenAux fuel (n / 2) + 1

/-- Number of binary digits of `n` (`0` for `0`). -/
def bitLen (n : Nat) : Nat := bitLenAux n n

/-- Round the real number `n + ε` to 53 significant bits, to nearest, ties to
even; `ε = 0` when `sticky` is false and `0 < ε < 1` when it is true. -/
def roundNE (n : Nat) (sticky : Bool) : Nat :=
  let s := bitLen n - 53
  if s = 0 then n
  else
    let q := n / 2 ^ s
    let r := n % 2 ^ s
    let half := 2 ^ (s - 1)
    if half < r ∨ (r = half ∧ (sticky = true ∨ q % 2 = 1)) then (q + 1) * 2 ^ s else q * 2 ^ s

/-- A non-negative finite double: the value `m / 2 ^ e`. -/
structure F64 where
  m : Nat
  e : Nat
  deriving DecidableEq, Repr

/-- The comparison `x < y` of two non-negative doubles. -/
def F64.lt (x y : F64) : Bool := decide (x.m * 2 ^ y.e < y.m * 2 ^ x.e)

/-- The constant `0.2` converted to `float64`: `0x3FC999999999999A`. -/
def c02 : F64 := { m := 7205759403792794, e := 55 }

/-- The constant `0.8` converted to `float64`: `0x3FE999999999999A`. -/
def c08 : F64 := { m := 7205759403792794, e := 53 }

/-- The conversion `float64(n)` of a non-negative integer. -/
def float64 (n : Nat) : Nat := roundNE n false

/-- The quotient `x / y` of two positive integer-valued doubles, correctly
rounded.  The exact quotient is scaled by `2 ^ 128` so that at least 53 bits
precede the rounding position. -/
def fdiv (x y : Nat) : F64 :=
  { m := roundNE (x * 2 ^ 128 / y) (decide (x * 2 ^ 128 % y ≠ 0)), e := 128 }

/-- The expression `int(float64(c) * t)` for a positive constant `t`: the
product is rounded, the conversion to `int` truncates toward zero. -/
def scaleTrunc (c : Int) (t : F64) : Int :=
  let mag : Nat := roundNE (float64 c.natAbs * t.m) false / 2 ^ t.e
  if c < 0 then -(mag : Int) else (mag : Int)

/-- The comparison `float64(created) / float64(capacity) < t` for a positive
constant `t`.  Division by zero gives an infinity of the sign of `created`, or
NaN for `0 / 0`, and NaN compares false. -/
def ratioLess (created capacity : Int) (t : F64) : Bool :=
  if capacity = 0 then decide (created < 0)
  else if created = 0 then true
  else if decide (created < 0) != decide (capacity < 0) then true
  else F64.lt (fdiv (float64 created.natAbs) (float64 capacity.natAbs)) t

/-- The comparison `float64(created) / float64(capacity) > t` for a positive
constant `t`. -/
def ratioGreater (created capacity : Int) (t : F64) : Bool :=
  if capacity = 0 then decide (0 < created)
  else if created = 0 then false
  else if decide (created < 0) != decide (capacity < 0) then false
  else F64.lt t (fdiv (float64 created.natAbs) (float64 capacity.natAbs))

/-! ## Adaptive controller -/

/-- `adjustInterval`.  Both `if` statements test the values read at entry. -/
def adjustInterval (p : Pool) : Pool :=
  let idle : Int := (p.idChan.len : Int)
  let capacity := p.capacity
  let interval := p.interval
  let p1 :=
    if idle < scaleTrunc capacity c02 ∧ interval > p.minIvl then
      { p with interval := max (wrap64 (interval - intervalAdjustStep)) p.minIvl }
    else p
  if idle > scaleTrunc capacity c08 ∧ interval < p.maxIvl then
    { p1 with interval := min (wrap64 (interval + intervalAdjustStep)) p.maxIvl }
  else p1

/-- `adjustCapacity`.  Both `if` statements test the capacity read at entry;
`capacity.Add` adds to the stored 32-bit value. -/
def adjustCapacity (created : Int) (p : Pool) : Pool :=
  let capacity := p.capacity
  let p1 :=
    if ratioLess created capacity c02 = true ∧ capacity > p.minCap then
      { p with capacity := wrap32 (p.capacity + -1) }
    else p
  if ratioGreater created capacity c08 = true ∧ capacity < p.maxCap then
    { p1 with capacity := wrap32 (p1.capacity + 1) }
  else p1

/-! ## Producer and acceptor -/

/-- What the network does during one `createConnection` call: the result of
`p.dialer()` (`none` is an error), whether a TLS handshake (if one is made)
succeeds, and the result of `io.ReadFull(conn, buf)` (`none` is an error or a
short read, otherwise the four bytes read). -/
structure DialEnv where
  dial : Option Conn
  handshake : Bool
  read : Option RawID
  deriving DecidableEq, Repr

/-- Result of `createConnection`: the pool afterwards, the returned boolean and
the handles on which `Close()` was called. -/
structure CreateResult where
  pool : Pool
  ok : Bool
  closed : List Conn
  deriving DecidableEq, Repr

/-- `createConnection`.  The `switch p.tlsCode` wraps the connection for the
codes "1" and "2" and does nothing for any other code. -/
def createConnection (env : DialEnv) (p : Pool) : CreateResult :=
  match env.dial with
  | none => { pool := p, ok := false, closed := [] }
  | some raw =>
    let wrapped : Option Conn :=
      if p.tlsCode = "1" ∨ p.tlsCode = "2" then
        (if env.handshake then some raw.wrapTLS else none)
      else some raw
    match wrapped with
    | none => { pool := p, ok := false, closed := [raw] }
    | some conn =>
      match env.read with
      | none => { pool := p, ok := false, closed := [conn] }
      | some buf =>
        let id := buf.id
        let p1 := { p with conns := ConnMap.Store id conn p.conns }
        match p1.idChan.trySend id with
        | some ch => { pool := { p1 with idChan := ch }, ok := true, closed := [] }
        | none =>
          { pool := { p1 with conns := ConnMap.Delete id p1.conns }, ok := false,
            closed := [conn] }

/-- What the network does during one `handleConnection` call: the accepted
connection, its remote address, whether the TLS handshake (if made) succeeds,
the result of `rand.Read` (`none` is an error) and whether `conn.Write(rawID)`
succeeds. -/
structure AcceptEnv where
  conn : Conn
  remoteIP : String
  handshake : Bool
  rand : Option RawID
  write : Bool
  deriving DecidableEq, Repr

/-- The `return` statements of `handleConnection` that leave `conn` non-nil. -/
inductive Reject where
  | poolFull
  | address
  | handshake
  | random
  | collision
  | write
  | queueFull
  deriving DecidableEq, Repr

/-- Result of `handleConnection`: the pool afterwards, the rejection taken
(`none` when the connection was registered), the identifier bytes written to
the peer (if the write succeeded) and the handles closed by the deferred
function. -/
structure HandleResult where
  pool : Pool
  rejected : Option Reject
  written : Option RawID
  closed : List Conn
  deriving DecidableEq, Repr

/-- `handleConnection`. -/
def handleConnection (env : AcceptEnv) (p : Pool) : HandleResult :=
  if p.Active ≥ p.maxCap then
    { pool := p, rejected := some Reject.poolFull, written := none, closed := [env.conn] }
  else if p.clientIP ≠ "" ∧ env.remoteIP ≠ p.clientIP then
    { pool := p, rejected := some Reject.address, written := none, closed := [env.conn] }
  else
    let wrapped : Option Conn :=
      if p.tlsConfig then (if env.handshake then some env.conn.wrapTLS else none)
      else some env.conn
    match wrapped with
    | none =>
      { pool := p, rejected := some Reject.handshake, written := none, closed := [env.conn] }
    | some conn =>
      match env.rand with
      | none => { pool := p, rejected := some Reject.random, written := none, closed := [conn] }
      | some rawID =>
        let id := rawID.id
        if (ConnMap.Load id p.conns).isSome then
          { pool := p, rejected := some Reject.collision, written := none, closed := [conn] }
        else if !env.write then
          { pool := p, rejected := some Reject.write, written := none, closed := [conn] }
        else
          match p.idChan.trySend id with
          | some ch =>
            { pool := { p with idChan := ch, conns := ConnMap.Store id conn p.conns },
              rejected := none, written := some rawID, closed := [] }
          | none =>
            { pool := p, rejected := some Reject.queueFull, written := some rawID,
              closed := [conn] }

/-- The handle `conn` holds in `handleConnection` once the TLS step is passed:
the `tls.Server` wrapper when a TLS configuration is set, the accepted
connection itself otherwise. -/
def acceptedConn (env : AcceptEnv) (p : Pool) : Conn :=
  if p.tlsConfig then env.conn.wrapTLS else env.conn

/-! ## Acquisition and flush, as whole calls -/

/-- How an `OutgoingGet` call ends: it returns the connection, it returns the
error after the deadline, or it has removed the connection from the map and
waits forever in the receive `<-p.idChan` on an empty channel. -/
inductive OutgoingOutcome where
  | ok (c : Conn)
  | notFound
  | blocked (c : Conn)
  deriving DecidableEq, Repr

/-- `OutgoingGet` run without interference.  When the identifier is absent each
retry finds the same map, so the call ends with the error at the deadline. -/
def OutgoingGet (id : ID) (p : Pool) : Pool × OutgoingOutcome :=
  match ConnMap.LoadAndDelete id p.conns with
  | (some c, m) =>
    match p.idChan.recv with
    | some (_, ch) => ({ p with conns := m, idChan := ch }, OutgoingOutcome.ok c)
    | none => ({ p with conns := m }, OutgoingOutcome.blocked c)
  | (none, m) => ({ p with conns := m }, OutgoingOutcome.notFound)

/-- `IncomingGet` run without interference.  `rounds` bounds how many times the
`select` takes the receive branch before the deadline branch is taken; on an
empty channel the `select` waits for the deadline.  The result `none` is the
error return. -/
def IncomingGet : Nat → Pool → Pool × Option (ID × Conn)
  | 0, p => (p, none)
  | rounds + 1, p =>
    match p.idChan.recv with
    | none => (p, none)
    | some (id, ch) =>
      match ConnMap.LoadAndDelete id p.conns with
      | (some c, m) => ({ p with idChan := ch, conns := m }, some (id, c))
      | (none, m) => IncomingGet rounds { p with idChan := ch, conns := m }

/-- Result of `Flush`: the pool afterwards and the handles closed. -/
structure FlushResult where
  pool : Pool
  closed : List Conn
  deriving DecidableEq, Repr

/-- `Flush`: `Close()` on every value of the map (the stored values are never
nil), then a fresh map and a fresh channel of capacity `maxCap`. -/
def Flush (p : Pool) : FlushResult :=
  { pool := { p with conns := [], idChan := Chan.make p.maxCap },
    closed := p.conns.map Prod.snd }

/-! ## Sequences of atomic operations -/

/-- One operation on the pool, executed atomically. -/
inductive Op where
  | create (env : DialEnv)
  | handle (env : AcceptEnv)
  | outgoingGet (id : ID)
  | incomingGet (rounds : Nat)
  | flush
  deriving DecidableEq, Repr

/-- The pool after one operation. -/
def step (p : Pool) : Op → Pool
  | Op.create env => (createConnection env p).pool
  | Op.handle env => (handleConnection env p).pool
  | Op.outgoingGet id => (OutgoingGet id p).1
  | Op.incomingGet rounds => (IncomingGet rounds p).1
  | Op.flush => (Flush p).pool

/-- The pool after a sequence of operations. -/
def run (p : Pool) (ops : List Op) : Pool := ops.foldl step p

/-- The identifier an operation tries to register, if any. -/
def Op.regID : Op → Option ID
  | Op.create env => env.read.map RawID.id
  | Op.handle env => env.rand.map RawID.id
  | _ => none

/-- The identifiers a sequence of operations tries to register, in order. -/
def regIDs (ops : List Op) : List ID := ops.filterMap Op.regID

/-- The identifier read by a `createConnection` step is not a key of the map
(no condition on the other operations). -/
def Op.freshAt (p : Pool) : Op → Bool
  | Op.create env =>
    match env.read with
    | none => true
    | some buf => !(ConnMap.keys p.conns).contains buf.id
  | _ => true

/-- Every `createConnection` step of the sequence reads an identifier that is
not registered at that moment. -/
def freshRun : Pool → List Op → Bool
  | _, [] => true
  | p, op :: ops => op.freshAt p && freshRun (step p op) ops

/-- The operation is an `OutgoingGet`. -/
def Op.isOutgoing : Op → Bool
  | Op.outgoingGet _ => true
  | _ => false

/-- The operation is an `IncomingGet`. -/
def Op.isIncoming : Op → Bool
  | Op.incomingGet _ => true
  | _ => false

/-! ## One `OutgoingGet` and one `IncomingGet` running concurrently

Each call is a small machine whose transitions are the atomic actions of the
code: a `LoadAndDelete` on the map, a receive on the channel, the firing of the
retry timer, the firing of the deadline.  A schedule is a list of actions; an
action that is not enabled in the current state (a receive on an empty channel,
a deadline where the code does not wait for one) makes the schedule invalid. -/

/-- Control point of `OutgoingGet(id, timeout)`: before `LoadAndDelete`, in the
`select` after a failed lookup, before the receive `<-p.idChan` holding the
connection found, or returned (`none` is the error return). -/
inductive OutPC where
  | load
  | wait
  | recv (c : Conn)
  | done (r : Option Conn)
  deriving DecidableEq, Repr

/-- Control point of `IncomingGet(timeout)`: in the `select`, before
`LoadAndDelete` of the identifier received, or returned (`none` is the error
return). -/
inductive InPC where
  | select
  | load (id : ID)
  | done (r : Option (ID × Conn))
  deriving DecidableEq, Repr

/-- The pool together with the control points of the two calls. -/
structure Sys where
  pool : Pool
  out : OutPC
  inc : InPC
  deriving DecidableEq, Repr

/-- The atomic actions: a step of `OutgoingGet`, its deadline, a step of
`IncomingGet`, its deadline. -/
inductive Act where
  | outStep
  | outDeadline
  | incStep
  | incDeadline
  deriving DecidableEq, Repr

/-- One atomic action of the system in which `OutgoingGet(x, _)` and
`IncomingGet(_)` run; `none` when the action is not enabled. -/
def Sys.step (x : ID) (s : Sys) : Act → Option Sys
  | Act.outStep =>
    match s.out with
    | OutPC.load =>
      match ConnMap.LoadAndDelete x s.pool.conns with
      | (some c, m) => some { s with pool := { s.pool with conns := m }, out := OutPC.recv c }
      | (none, m) => some { s with pool := { s.pool with conns := m }, out := OutPC.wait }
    | OutPC.wait => some { s with out := OutPC.load }
    | OutPC.recv c =>
      match s.pool.idChan.recv with
      | some (_, ch) =>
        some { s with pool := { s.pool with idChan := ch }, out := OutPC.done (some c) }
      | none => none
    | OutPC.done _ => none
  | Act.outDeadline =>
    match s.out with
    | OutPC.wait => some { s with out := OutPC.done none }
    | _ => none
  | Act.incStep =>
    match s.inc with
    | InPC.select =>
      match s.pool.idChan.recv with
      | some (id, ch) => some { s with pool := { s.pool with idChan := ch }, inc := InPC.load id }
      | none => none
    | InPC.load id =>
      match ConnMap.LoadAndDelete id s.pool.conns with
      | (some c, m) =>
        some { s with pool := { s.pool with conns := m }, inc := InPC.done (some (id, c)) }
      | (none, m) => some { s with pool := { s.pool with conns := m }, inc := InPC.select }
    | InPC.done _ => none
  | Act.incDeadline =>
    match s.inc with
    | InPC.select => some { s with inc := InPC.done none }
    | _ => none

/-- The state after a schedule; `none` when some action was not enabled. -/
def Sys.run (x : ID) : Sys → List Act → Option Sys
  | s, [] => some s
  | s, a :: rest =>
    match s.step x a with
    | some s1 => Sys.run x s1 rest
    | none => none

/-- Both calls start on the pool `p`. -/
def Sys.init (p : Pool) : Sys := { pool := p, out := OutPC.load, inc := InPC.select }

/-- The identifier returned by `IncomingGet`, once it has returned one. -/
def InPC.returnedID : InPC → Option ID
  | InPC.done (some (id, _)) => some id
  | _ => none

/-- Where the connection `c` registered under `x` is while the two calls run:
still in the map (and `OutgoingGet` has not looked it up yet); or taken out of
the map by `OutgoingGet`, which is about to receive a token or has returned
it; or returned by `IncomingGet` together with `x`, in which case
`OutgoingGet` holds nothing (it polls, waits, or has returned the error).  In
the first two cases `IncomingGet` has not returned the identifier `x`. -/
def Sys.Exclusive (x : ID) (c : Conn) (s : Sys) : Prop :=
  (ConnMap.Load x s.pool.conns = some c ∧ s.out = OutPC.load ∧ s.inc.returnedID ≠ some x) ∨
  (ConnMap.Load x s.pool.conns = none ∧
      (s.out = OutPC.recv c ∨ s.out = OutPC.done (some c)) ∧ s.inc.returnedID ≠ some x) ∨
  (ConnMap.Load x s.pool.conns = none ∧
      (s.out = OutPC.load ∨ s.out = OutPC.wait ∨ s.out = OutPC.done none) ∧
      s.inc = InPC.done (some (x, c)))

/-- The controller steps of one `ClientManager` iteration in which no
`createConnection` succeeds: `adjustInterval`, then `adjustCapacity(created)`
with `created` still `0`. -/
def starvedIteration (p : Pool) : Pool := adjustCapacity 0 (adjustInterval p)

/-- The pool after `n` such iterations. -/
def starved : Nat → Pool → Pool
  | 0, p => p
  | n + 1, p => starved n (starvedIteration p)

/-- The pool after the registration of `id`: the binding is stored and the
identifier is appended to the queue. -/
def Pool.register (id : ID) (c : Conn) (p : Pool) : Pool :=
  { p with conns := ConnMap.Store id c p.conns,
           idChan := { p.idChan with buf := p.idChan.buf ++ [id] } }

/-- The keys of the map are pairwise distinct and the queue holds as many
identifiers as the map has entries. -/
def CountInv (p : Pool) : Prop :=
  (ConnMap.keys p.conns).Nodup ∧ p.idChan.buf.length = p.conns.length

/-- The keys of the map are pairwise distinct and the queue lists exactly the
keys, in registration order. -/
def KeysInv (p : Pool) : Prop :=
  (ConnMap.keys p.conns).Nodup ∧ p.idChan.buf = ConnMap.keys p.conns

/-- The controller state is within its bounds, and the bounds leave room for
one adjustment step inside the machine integer ranges. -/
def ControllerInv (p : Pool) : Prop :=
  1 ≤ p.minCap ∧ p.minCap ≤ p.capacity ∧ p.capacity ≤ p.maxCap ∧ p.maxCap < 2 ^ 31 ∧
  0 < p.minIvl ∧ p.minIvl ≤ p.interval ∧ p.interval ≤ p.maxIvl ∧
  p.maxIvl + intervalAdjustStep < 2 ^ 63

/-! ## Concrete inputs -/

/-- The raw identifier `00 00 00 n`. -/
def rawN (n : Fin 256) : RawID := { b0 := 0, b1 := 0, b2 := 0, b3 := n }

/-- A `createConnection` environment: the dial returns descriptor `fd`, the
peer sends the identifier `00 00 00 n`. -/
def dialN (fd : Nat) (n : Fin 256) : DialEnv :=
  { dial := some { fd := fd, tls := false }, handshake := true, read := some (rawN n) }

/-- A client pool with `minCap = 1`, `maxCap = 2`, default intervals, no TLS. -/
def pool12 : Pool := NewClientPool 1 2 0 0 "0"

/-- Two registrations, then `OutgoingGet` of the second identifier. -/
def opsOutgoing : List Op :=
  [Op.create (dialN 1 1), Op.create (dialN 2 2), Op.outgoingGet "00000002"]

/-- Two registrations, `OutgoingGet` of the second identifier, then an
`IncomingGet`. -/
def opsMixed : List Op := opsOutgoing ++ [Op.incomingGet 1]

/-- Two registrations, then an `IncomingGet`. -/
def opsIncoming : List Op :=
  [Op.create (dialN 1 1), Op.create (dialN 2 2), Op.incomingGet 1]

/-- An acceptor environment for descriptor `fd`: the handshake succeeds,
`rand.Read` returns `00 00 00 n`, and the write succeeds or fails as given. -/
def acceptN (fd : Nat) (n : Fin 256) (write : Bool) : AcceptEnv :=
  { conn := { fd := fd, tls := false }, remoteIP := "10.0.0.1", handshake := true,
    rand := some (rawN n), write := write }

/-- A client pool with `maxCap = 1` after one successful `createConnection`
that read the identifier `00 00 00 01`: the map holds that identifier and the
queue is full. -/
def poolFull1 : Pool := (createConnection (dialN 1 1) (NewClientPool 1 1 0 0 "0")).pool

/-- A client pool with `minCap = 1`, `maxCap = 10`, intervals from 100ms to
1s, after one registration. -/
def poolOneIdle : Pool :=
  (createConnection (dialN 1 1) (NewClientPool 1 10 (100 * ms) (1000 * ms) "0")).pool

/-- The pool `poolOneIdle` after four `adjustInterval` calls (each raises the
interval by one step, the single idle connection being above `0.8 * capacity`)
and the acquisition of the connection: capacity 1, idle 0, interval 500ms. -/
def poolDrained : Pool :=
  (OutgoingGet "00000001"
    (adjustInterval (adjustInterval (adjustInterval (adjustInterval poolOneIdle))))).1

/-- A freshly constructed client pool with `minCap = 1`, `maxCap = 3`,
`minIvl = 100ms`, `maxIvl = 1s`. -/
def poolStarving : Pool := NewClientPool 1 3 (100 * ms) (1000 * ms) "0"

/-- A client pool whose interval bounds are the two largest durations, after
one registration. -/
def poolLongIvl : Pool :=
  (createConnection (dialN 1 1)
    (NewClientPool 1 1 9223372036854775806 9223372036854775807 "0")).pool

/-- A client pool with `minCap = 2^31 - 1` and `maxCap = 2^31`. -/
def poolHugeCap : Pool := NewClientPool 2147483647 2147483648 0 0 "0"

/-- A client pool with capacity 10 between the bounds 1 and 20. -/
def poolCap10 : Pool := { NewClientPool 1 20 0 0 "0" with capacity := 10 }

/-- The example of the specification: capacity 10, one idle connection,
interval 500ms, `minIvl` 100ms. -/
def poolExample : Pool := { poolOneIdle with capacity := 10, interval := 500 * ms }

/-- A client pool with capacity 7 between the bounds 2 and 9, interval 500ms
between 100ms and 1s, and an empty queue. -/
def poolCap7 : Pool :=
  { NewClientPool 2 9 (100 * ms) (1000 * ms) "0" with capacity := 7, interval := 500 * ms }

/-- The pool `pool12` after one registration: the map holds `00000001`
(descriptor 1) and the queue holds its token. -/
def poolOneReg : Pool := (createConnection (dialN 1 1) pool12).pool

/-- `IncomingGet` receives the token, `OutgoingGet` removes the map entry,
`IncomingGet` fails to find the entry and returns to its `select`, where its
deadline fires. -/
def schedStuck : List Act := [Act.incStep, Act.outStep, Act.incStep, Act.incDeadline]

/-- `IncomingGet` receives the token and removes the map entry; `OutgoingGet`
then fails its lookup and its deadline fires. -/
def schedIncomingWins : List Act :=
  [Act.incStep, Act.incStep, Act.outStep, Act.outDeadline]

/-- Two registrations that read the same identifier. -/
def opsDuplicate : List Op := [Op.create (dialN 1 1), Op.create (dialN 2 1)]

/-- The server pool built by `NewServerPool(3, "", nil, listener, ...)`. -/
def serverPool3 : Pool :=
  { conns := []
    idChan := { buf := [], cap := 3 }
    tlsCode := ""
    clientIP := ""
    tlsConfig := false
    capacity := 0
    minCap := 0
    maxCap := 3
    interval := 0
    minIvl := 0
    maxIvl := 0 }

/-! ## Lemmas on the connection map -/

namespace ConnMap

theorem Delete_of_not_mem {id : ID} {m : ConnMap} (h : id ∉ keys m) : Delete id m = m := by
  unfold Delete
  rw [List.filter_eq_self]
  intro kv hkv
  have : kv.1 ≠ id := by
    intro he
    exact h (by rw [← he]; exact List.mem_map_of_mem Prod.fst hkv)
  simpa using this

theorem Load_cons (id : ID) (kv : ID × Conn) (m : ConnMap) :
    Load id (kv :: m) = if kv.1 = id then some kv.2 else Load id m := by
  unfold Load
  by_cases h : kv.1 = id
  · simp [List.find?_cons, h]
  · have hb : (kv.1 == id) = false := by simpa using h
    simp [List.find?_cons, h, hb]

theorem Delete_cons (id : ID) (kv : ID × Conn) (m : ConnMap) :
    Delete id (kv :: m) = if kv.1 = id then Delete id m else kv :: Delete id m := by
  unfold Delete
  by_cases h : kv.1 = id
  · simp [List.filter_cons, h]
  · have hb : (kv.1 == id) = false := by simpa using h
    simp [List.filter_cons, h, hb]

theorem Load_eq_none_iff {id : ID} {m : ConnMap} : Load id m = none ↔ id ∉ keys m := by
  induction m with
  | nil => simp [Load, keys]
  | cons kv m ih =>
    rw [Load_cons]
    by_cases h : kv.1 = id
    · subst h
      simp [keys]
    · have h2 : ¬ id = kv.1 := fun e => h e.symm
      rw [if_neg h, ih]
      simp [keys, h2]

theorem Load_isSome_iff {id : ID} {m : ConnMap} : (Load id m).isSome = true ↔ id ∈ keys m := by
  rw [← not_iff_not, Bool.not_eq_true, Option.not_isSome, Option.isNone_iff_eq_none]
  exact Load_eq_none_iff

theorem keys_Delete (id : ID) (m : ConnMap) :
    keys (Delete id m) = (keys m).filter fun k => !(k == id) := by
  unfold keys Delete
  induction m with
  | nil => rfl
  | cons kv m ih =>
    by_cases h : kv.1 = id <;> simp [List.filter_cons, h, ih]

theorem not_mem_keys_Delete (id : ID) (m : ConnMap) : id ∉ keys (Delete id m) := by
  rw [keys_Delete]
  simp

theorem mem_keys_Delete {id k : ID} {m : ConnMap} :
    k ∈ keys (Delete id m) ↔ k ∈ keys m ∧ k ≠ id := by
  rw [keys_Delete]
  simp

theorem nodup_keys_Delete {id : ID} {m : ConnMap} (h : (keys m).Nodup) :
    (keys (Delete id m)).Nodup := by
  rw [keys_Delete]
  exact h.filter _

theorem keys_Store (id : ID) (c : Conn) (m : ConnMap) :
    keys (Store id c m) = keys (Delete id m) ++ [id] := by
  simp [keys, Store]

theorem nodup_keys_Store {id : ID} {c : Conn} {m : ConnMap} (h : (keys m).Nodup) :
    (keys (Store id c m)).Nodup := by
  rw [keys_Store]
  refine List.Nodup.append (nodup_keys_Delete h) (List.nodup_singleton id) ?_
  intro k hk hk2
  have : k = id := by simpa using hk2
  exact not_mem_keys_Delete id m (this ▸ hk)

theorem Store_of_not_mem {id : ID} {c : Conn} {m : ConnMap} (h : id ∉ keys m) :
    Store id c m = m ++ [(id, c)] := by
  unfold Store
  rw [Delete_of_not_mem h]

theorem Delete_Store_of_not_mem {id : ID} {c : Conn} {m : ConnMap} (h : id ∉ keys m) :
    Delete id (Store id c m) = m := by
  rw [Store_of_not_mem h]
  unfold Delete
  rw [List.filter_append]
  have := Delete_of_not_mem h
  unfold Delete at this
  rw [this]
  simp

theorem length_Delete_of_mem {id : ID} {m : ConnMap} (hn : (keys m).Nodup) (h : id ∈ keys m) :
    (Delete id m).length + 1 = m.length := by
  induction m with
  | nil => simp [keys] at h
  | cons kv m ih =>
    have hn2 : (keys m).Nodup := (List.nodup_cons.mp hn).2
    have hnot : kv.1 ∉ keys m := (List.nodup_cons.mp hn).1
    by_cases hk : kv.1 = id
    · have hd : Delete id (kv :: m) = Delete id m := by
        simp [Delete, List.filter_cons, hk]
      rw [hd, Delete_of_not_mem (hk ▸ hnot)]
      simp
    · have hd : Delete id (kv :: m) = kv :: Delete id m := by
        simp [Delete, List.filter_cons, hk]
      have hmem : id ∈ keys m := by
        have : id = kv.1 ∨ id ∈ keys m := by simpa [keys] using h
        rcases this with e | e
        · exact absurd e.symm hk
        · exact e
      rw [hd]
      simp only [List.length_cons]
      rw [ih hn2 hmem]

theorem Load_Delete_self (id : ID) (m : ConnMap) : Load id (Delete id m) = none :=
  Load_eq_none_iff.mpr (not_mem_keys_Delete id m)

theorem Load_Delete_of_ne {id k : ID} (m : ConnMap) (h : k ≠ id) :
    Load id (Delete k m) = Load id m := by
  induction m with
  | nil => rfl
  | cons kv m ih =>
    rw [Delete_cons, Load_cons]
    by_cases h1 : kv.1 = k
    · have h2 : ¬ kv.1 = id := fun e => h (h1 ▸ e)
      rw [if_pos h1, if_neg h2, ih]
    · rw [if_neg h1, Load_cons, ih]

end ConnMap
/-! ## What one operation does to the pool -/

theorem createConnection_pool (env : DialEnv) (p : Pool) :
    (createConnection env p).pool = p ∨
    ∃ buf conn, env.read = some buf ∧
      (((createConnection env p).pool = p.register buf.id conn ∧
          (createConnection env p).ok = true) ∨
        ((createConnection env p).pool =
            { p with conns := ConnMap.Delete buf.id (ConnMap.Store buf.id conn p.conns) } ∧
          (createConnection env p).ok = false)) := by
  unfold createConnection
  cases hd : env.dial with
  | none => exact Or.inl rfl
  | some raw =>
    simp only
    split
    · exact Or.inl rfl
    · rename_i conn _
      cases hr : env.read with
      | none => exact Or.inl rfl
      | some buf =>
        refine Or.inr ⟨buf, conn, rfl, ?_⟩
        simp only [Chan.trySend]
        by_cases hfull : p.idChan.buf.length < p.idChan.cap
        · left
          simp [hfull, Pool.register]
        · right
          simp [hfull]

theorem handleConnection_pool (env : AcceptEnv) (p : Pool) :
    ((handleConnection env p).pool = p ∧ (handleConnection env p).rejected ≠ none) ∨
    ∃ rawID conn, env.rand = some rawID ∧ rawID.id ∉ ConnMap.keys p.conns ∧
      (handleConnection env p).pool = p.register rawID.id conn ∧
      (handleConnection env p).rejected = none := by
  unfold handleConnection
  split
  · exact Or.inl ⟨rfl, by simp⟩
  · split
    · exact Or.inl ⟨rfl, by simp⟩
    · simp only
      split
      · exact Or.inl ⟨rfl, by simp⟩
      · rename_i conn _
        cases hr : env.rand with
        | none => exact Or.inl ⟨rfl, by simp⟩
        | some rawID =>
          simp only
          split
          · exact Or.inl ⟨rfl, by simp⟩
          · rename_i hload
            split
            · exact Or.inl ⟨rfl, by simp⟩
            · simp only [Chan.trySend]
              by_cases hfull : p.idChan.buf.length < p.idChan.cap
              · right
                refine ⟨rawID, conn, rfl, ?_, ?_, ?_⟩
                · intro hmem
                  exact hload (ConnMap.Load_isSome_iff.mpr hmem)
                · simp [hfull, Pool.register]
                · simp [hfull]
              · left
                simp [hfull]

/-! ## Invariants of the map and the queue -/

theorem register_KeysInv {p : Pool} {id : ID} (c : Conn) (h : KeysInv p)
    (hid : id ∉ ConnMap.keys p.conns) : KeysInv (p.register id c) := by
  refine ⟨ConnMap.nodup_keys_Store h.1, ?_⟩
  simp only [Pool.register]
  rw [ConnMap.keys_Store, ConnMap.Delete_of_not_mem hid, h.2]

theorem register_CountInv {p : Pool} {id : ID} (c : Conn) (h : CountInv p)
    (hid : id ∉ ConnMap.keys p.conns) : CountInv (p.register id c) := by
  refine ⟨ConnMap.nodup_keys_Store h.1, ?_⟩
  simp only [Pool.register]
  rw [ConnMap.Store_of_not_mem hid]
  simp [h.2]

theorem KeysInv.count {p : Pool} (h : KeysInv p) : CountInv p :=
  ⟨h.1, by rw [h.2]; simp [ConnMap.keys]⟩

theorem freshAt_create {env : DialEnv} {p : Pool} (hf : (Op.create env).freshAt p = true)
    (buf : RawID) (hr : env.read = some buf) : buf.id ∉ ConnMap.keys p.conns := by
  simp only [Op.freshAt, hr] at hf
  simpa using hf

theorem createConnection_fresh (env : DialEnv) (p : Pool)
    (hf : (Op.create env).freshAt p = true) :
    (createConnection env p).pool = p ∨
    ∃ (buf : RawID) (conn : Conn), buf.id ∉ ConnMap.keys p.conns ∧
      (createConnection env p).pool = p.register buf.id conn := by
  rcases createConnection_pool env p with h | ⟨buf, conn, hr, h | h⟩
  · exact Or.inl h
  · exact Or.inr ⟨buf, conn, freshAt_create hf buf hr, h.1⟩
  · left
    rw [h.1, ConnMap.Delete_Store_of_not_mem (freshAt_create hf buf hr)]

theorem IncomingGet_KeysInv (rounds : Nat) (p : Pool) (h : KeysInv p) :
    KeysInv (IncomingGet rounds p).1 := by
  induction rounds generalizing p with
  | zero => exact h
  | succ n ih =>
    unfold IncomingGet
    obtain ⟨conns, ch, tlsCode, clientIP, tlsConfig, capacity, minCap, maxCap, interval,
      minIvl, maxIvl⟩ := p
    obtain ⟨buf, cap⟩ := ch
    obtain ⟨hn, hq⟩ := h
    simp only at hn hq
    cases conns with
    | nil =>
      have : buf = [] := by simpa [ConnMap.keys] using hq
      subst this
      exact ⟨hn, hq⟩
    | cons kv rest =>
      have hbuf : buf = kv.1 :: ConnMap.keys rest := by simpa [ConnMap.keys] using hq
      subst hbuf
      have hnot : kv.1 ∉ ConnMap.keys rest := (List.nodup_cons.mp hn).1
      have hn2 : (ConnMap.keys rest).Nodup := (List.nodup_cons.mp hn).2
      have hdel : ConnMap.Delete kv.1 (kv :: rest) = rest := by
        rw [ConnMap.Delete_cons, if_pos rfl, ConnMap.Delete_of_not_mem hnot]
      have hload : ConnMap.Load kv.1 (kv :: rest) = some kv.2 := by
        rw [ConnMap.Load_cons, if_pos rfl]
      simp only [Chan.recv, ConnMap.LoadAndDelete, hload, hdel]
      exact ⟨hn2, rfl⟩

theorem OutgoingGet_CountInv (id : ID) (p : Pool) (h : CountInv p) :
    CountInv (OutgoingGet id p).1 := by
  unfold OutgoingGet
  simp only [ConnMap.LoadAndDelete]
  cases hl : ConnMap.Load id p.conns with
  | none =>
    have hid : id ∉ ConnMap.keys p.conns := ConnMap.Load_eq_none_iff.mp hl
    simp only
    rw [ConnMap.Delete_of_not_mem hid]
    exact h
  | some c =>
    have hid : id ∈ ConnMap.keys p.conns :=
      ConnMap.Load_isSome_iff.mp (by rw [hl]; rfl)
    have hlen := ConnMap.length_Delete_of_mem h.1 hid
    simp only
    cases hb : p.idChan.buf with
    | nil =>
      have := h.2
      rw [hb] at this
      simp at this
      omega
    | cons t rest =>
      simp only [Chan.recv, hb]
      refine ⟨ConnMap.nodup_keys_Delete h.1, ?_⟩
      have := h.2
      rw [hb] at this
      simp only [List.length_cons] at this
      simp only
      omega

theorem Flush_KeysInv (p : Pool) : KeysInv (Flush p).pool := by
  simp [Flush, KeysInv, ConnMap.keys, Chan.make]

theorem step_KeysInv (p : Pool) (op : Op) (h : KeysInv p) (hf : op.freshAt p = true)
    (hop : op.isOutgoing = false) : KeysInv (step p op) := by
  cases op with
  | create env =>
    rcases createConnection_fresh env p hf with e | ⟨buf, conn, hid, e⟩
    · simpa [step, e] using h
    · simpa [step, e] using register_KeysInv conn h hid
  | handle env =>
    rcases handleConnection_pool env p with e | ⟨rawID, conn, _, hid, e, _⟩
    · simpa [step, e.1] using h
    · simpa [step, e] using register_KeysInv conn h hid
  | outgoingGet id => simp [Op.isOutgoing] at hop
  | incomingGet rounds => exact IncomingGet_KeysInv rounds p h
  | flush => exact Flush_KeysInv p

theorem step_CountInv (p : Pool) (op : Op) (h : CountInv p) (hf : op.freshAt p = true)
    (hop : op.isIncoming = false) : CountInv (step p op) := by
  cases op with
  | create env =>
    rcases createConnection_fresh env p hf with e | ⟨buf, conn, hid, e⟩
    · simpa [step, e] using h
    · simpa [step, e] using register_CountInv conn h hid
  | handle env =>
    rcases handleConnection_pool env p with e | ⟨rawID, conn, _, hid, e, _⟩
    · simpa [step, e.1] using h
    · simpa [step, e] using register_CountInv conn h hid
  | outgoingGet id => exact OutgoingGet_CountInv id p h
  | incomingGet rounds => simp [Op.isIncoming] at hop
  | flush => exact (Flush_KeysInv p).count

theorem run_KeysInv (ops : List Op) (p : Pool) (h : KeysInv p) (hf : freshRun p ops = true)
    (hop : ∀ op ∈ ops, op.isOutgoing = false) : KeysInv (run p ops) := by
  induction ops generalizing p with
  | nil => exact h
  | cons op ops ih =>
    simp only [freshRun, Bool.and_eq_true] at hf
    simp only [run, List.foldl_cons]
    exact ih (step p op) (step_KeysInv p op h hf.1 (hop op (List.mem_cons_self _ _))) hf.2
      (fun o ho => hop o (List.mem_cons_of_mem _ ho))

theorem run_CountInv (ops : List Op) (p : Pool) (h : CountInv p) (hf : freshRun p ops = true)
    (hop : ∀ op ∈ ops, op.isIncoming = false) : CountInv (run p ops) := by
  induction ops generalizing p with
  | nil => exact h
  | cons op ops ih =>
    simp only [freshRun, Bool.and_eq_true] at hf
    simp only [run, List.foldl_cons]
    exact ih (step p op) (step_CountInv p op h hf.1 (hop op (List.mem_cons_self _ _))) hf.2
      (fun o ho => hop o (List.mem_cons_of_mem _ ho))

theorem IncomingGet_keys_subset (rounds : Nat) (p : Pool) (id : ID)
    (h : id ∈ ConnMap.keys (IncomingGet rounds p).1.conns) : id ∈ ConnMap.keys p.conns := by
  induction rounds generalizing p with
  | zero => exact h
  | succ n ih =>
    unfold IncomingGet at h
    cases hb : p.idChan.buf with
    | nil =>
      simp only [Chan.recv, hb] at h
      exact h
    | cons t rest =>
      simp only [Chan.recv, hb, ConnMap.LoadAndDelete] at h
      cases hl : ConnMap.Load t p.conns with
      | none =>
        simp only [hl] at h
        exact (ConnMap.mem_keys_Delete.mp (ih _ h)).1
      | some c =>
        simp only [hl] at h
        exact (ConnMap.mem_keys_Delete.mp h).1

theorem keys_step_subset (p : Pool) (op : Op) (id : ID)
    (h : id ∈ ConnMap.keys (step p op).conns) :
    id ∈ ConnMap.keys p.conns ∨ op.regID = some id := by
  have hreg : ∀ (k : ID) (c : Conn), id ∈ ConnMap.keys (ConnMap.Store k c p.conns) →
      id ∈ ConnMap.keys p.conns ∨ k = id := by
    intro k c hk
    rw [ConnMap.keys_Store, List.mem_append] at hk
    rcases hk with hk | hk
    · exact Or.inl (ConnMap.mem_keys_Delete.mp hk).1
    · exact Or.inr (List.mem_singleton.mp hk).symm
  cases op with
  | create env =>
    simp only [step] at h
    rcases createConnection_pool env p with e | ⟨buf, conn, hr, e | e⟩
    · rw [e] at h
      exact Or.inl h
    · rw [e.1] at h
      rcases hreg _ _ h with h1 | h1
      · exact Or.inl h1
      · exact Or.inr (by simp [Op.regID, hr, h1])
    · rw [e.1] at h
      rcases hreg _ _ (ConnMap.mem_keys_Delete.mp h).1 with h1 | h1
      · exact Or.inl h1
      · exact Or.inr (by simp [Op.regID, hr, h1])
  | handle env =>
    simp only [step] at h
    rcases handleConnection_pool env p with e | ⟨rawID, conn, hr, _, e, _⟩
    · rw [e.1] at h
      exact Or.inl h
    · rw [e] at h
      rcases hreg _ _ h with h1 | h1
      · exact Or.inl h1
      · exact Or.inr (by simp [Op.regID, hr, h1])
  | outgoingGet k =>
    left
    simp only [step, OutgoingGet, ConnMap.LoadAndDelete] at h
    cases hl : ConnMap.Load k p.conns with
    | none =>
      simp only [hl] at h
      exact (ConnMap.mem_keys_Delete.mp h).1
    | some c =>
      simp only [hl] at h
      cases hb : p.idChan.recv with
      | none =>
        simp only [hb] at h
        exact (ConnMap.mem_keys_Delete.mp h).1
      | some r =>
        simp only [hb] at h
        exact (ConnMap.mem_keys_Delete.mp h).1
  | incomingGet rounds => exact Or.inl (IncomingGet_keys_subset rounds p id h)
  | flush => simp [step, Flush, ConnMap.keys] at h

theorem freshRun_of_nodup (ops : List Op) (p : Pool)
    (hk : ∀ id ∈ ConnMap.keys p.conns, id ∉ regIDs ops) (hd : (regIDs ops).Nodup) :
    freshRun p ops = true := by
  induction ops generalizing p with
  | nil => rfl
  | cons op ops ih =>
    simp only [freshRun, Bool.and_eq_true]
    have hsplit : regIDs (op :: ops) = (op.regID.toList) ++ regIDs ops := by
      cases hr : op.regID <;> simp [regIDs, List.filterMap_cons, hr]
    rw [hsplit] at hk hd
    constructor
    · cases op with
      | create env =>
        cases hr : env.read with
        | none => simp [Op.freshAt, hr]
        | some buf =>
          simp only [Op.freshAt, hr, Bool.not_eq_true', List.contains_eq_any_beq,
            List.any_eq_false, beq_iff_eq]
          intro k hkm hkeq
          exact hk k hkm (by simp [Op.regID, hr, hkeq])
      | handle env => rfl
      | outgoingGet id => rfl
      | incomingGet rounds => rfl
      | flush => rfl
    · refine ih (step p op) ?_ (List.Nodup.of_append_right hd)
      intro id hid hmem
      rcases keys_step_subset p op id hid with h1 | h1
      · exact hk id h1 (List.mem_append_right _ hmem)
      · rw [h1] at hd
        simp only [Option.toList_some, List.singleton_append, List.nodup_cons] at hd
        exact hd.1 hmem

/-! ## Claims on the map and the queue -/

/-- C1 (as stated, refuted): after two registrations with distinct
identifiers, `OutgoingGet` of the second one (which consumes the token of the
first) and one `IncomingGet` (which drops the stale token and then finds the
queue empty), the queue is empty while the map still has one entry. -/
theorem C1_length_differs_after_mixed_acquisition :
    (run pool12 opsMixed).idChan.buf.length = 0 ∧ (run pool12 opsMixed).conns.length = 1 := by
  decide

/-- C1 (amended): from an empty pool, every sequence of `createConnection`
steps that read an identifier not currently registered, `handleConnection`
steps, `Flush` steps and acquisitions of a single kind (no `OutgoingGet` in the
sequence, or no `IncomingGet` in it) leads to a state in which the length of
the availability queue equals the size of the connection map. -/
theorem C1_queue_length_eq_map_size (p0 : Pool) (ops : List Op)
    (hc : p0.conns = []) (hq : p0.idChan.buf = []) (hf : freshRun p0 ops = true)
    (hk : (∀ op ∈ ops, op.isOutgoing = false) ∨ (∀ op ∈ ops, op.isIncoming = false)) :
    (run p0 ops).idChan.buf.length = (run p0 ops).conns.length := by
  have h0 : KeysInv p0 := by simp [KeysInv, hc, hq, ConnMap.keys]
  rcases hk with hk | hk
  · exact (run_KeysInv ops p0 h0 hf hk).count.2
  · exact (run_CountInv ops p0 h0.count hf hk).2

/-- C1 (amended), instance: two registrations followed by an `OutgoingGet`. -/
theorem C1_queue_length_eq_map_size_witness :
    (pool12.conns = [] ∧ pool12.idChan.buf = [] ∧ freshRun pool12 opsOutgoing = true ∧
      ((∀ op ∈ opsOutgoing, op.isOutgoing = false) ∨
        (∀ op ∈ opsOutgoing, op.isIncoming = false))) ∧
    (run pool12 opsOutgoing).idChan.buf.length = (run pool12 opsOutgoing).conns.length :=
  ⟨by decide,
    C1_queue_length_eq_map_size pool12 opsOutgoing (by decide) (by decide) (by decide)
      (by decide)⟩

/-- C5 (as stated, refuted): after two registrations with distinct identifiers
and `OutgoingGet` of the second one, the queue holds the second identifier,
which is no longer a key of the map, and the map holds the first identifier,
which is no longer in the queue. -/
theorem C5_queue_ids_differ_after_OutgoingGet :
    (regIDs opsOutgoing).Nodup ∧
    (run pool12 opsOutgoing).idChan.buf = ["00000002"] ∧
    ConnMap.keys (run pool12 opsOutgoing).conns = ["00000001"] := by
  decide

/-- C5 (amended): from an empty pool, every sequence of registrations with
pairwise distinct identifiers, `IncomingGet` steps and `Flush` steps (no
`OutgoingGet`) leads to a state in which an identifier is in the availability
queue if and only if it is a key of the connection map. -/
theorem C5_queue_ids_eq_map_keys (p0 : Pool) (ops : List Op)
    (hc : p0.conns = []) (hq : p0.idChan.buf = []) (hd : (regIDs ops).Nodup)
    (hop : ∀ op ∈ ops, op.isOutgoing = false) (id : ID) :
    id ∈ (run p0 ops).idChan.buf ↔ id ∈ ConnMap.keys (run p0 ops).conns := by
  have h0 : KeysInv p0 := by simp [KeysInv, hc, hq, ConnMap.keys]
  have hf : freshRun p0 ops = true :=
    freshRun_of_nodup ops p0 (by simp [hc, ConnMap.keys]) hd
  rw [(run_KeysInv ops p0 h0 hf hop).2]

/-- C5 (amended), instance: two registrations followed by an `IncomingGet`. -/
theorem C5_queue_ids_eq_map_keys_witness :
    (pool12.conns = [] ∧ pool12.idChan.buf = [] ∧ (regIDs opsIncoming).Nodup ∧
      (∀ op ∈ opsIncoming, op.isOutgoing = false)) ∧
    ("00000002" ∈ (run pool12 opsIncoming).idChan.buf ↔
      "00000002" ∈ ConnMap.keys (run pool12 opsIncoming).conns) :=
  ⟨by decide,
    C5_queue_ids_eq_map_keys pool12 opsIncoming (by decide) (by decide) (by decide)
      (by decide) "00000002"⟩

/-! ## Flush, acceptor and producer -/

/-- C8: `Flush` calls `Close()` on every connection registered in the map (each
value once), leaves the map empty and the queue empty with the capacity given
by `maxCap`, and a second `Flush` right after the first closes nothing and
yields the same pool.  `Flush` is a total function: no call fails. -/
theorem C8_Flush_empties_pool_and_is_idempotent (p : Pool) :
    (Flush p).closed = p.conns.map Prod.snd ∧
    (Flush p).pool.conns = [] ∧
    (Flush p).pool.idChan.buf = [] ∧
    (Flush p).pool.idChan.cap = p.maxCap.toNat ∧
    (Flush (Flush p).pool).pool = (Flush p).pool ∧
    (Flush (Flush p).pool).closed = [] := by
  simp [Flush, Chan.make]

theorem NewClientPool_maxCap_pos (minCap maxCap minIvl maxIvl : Int) (tlsCode : String) :
    1 ≤ (NewClientPool minCap maxCap minIvl maxIvl tlsCode).maxCap := by
  simp only [NewClientPool, defaultMinCap, defaultMaxCap]
  split_ifs <;> omega

theorem NewServerPool_maxCap_pos (maxCap : Int) (clientIP : String) (tlsConfig : Bool)
    (p : Pool) (h : NewServerPool maxCap clientIP tlsConfig true = some p) : 1 ≤ p.maxCap := by
  simp only [NewServerPool, defaultMaxCap, Bool.not_true, Bool.false_eq_true, if_false,
    Option.some.injEq] at h
  subst h
  simp only
  split_ifs <;> omega

/-- C9: `handleConnection` takes exactly the branch its inputs select, in the
order of the code, and each branch has the stated effect.
* Queue length at or above `maxCap`: rejection `poolFull`.
* Otherwise, an allow-listed address is set and the remote address differs:
  rejection `address`.
* Otherwise, a TLS configuration is set and the handshake fails: rejection
  `handshake`.
* Otherwise `rand.Read` fails: rejection `random`.
* Otherwise the generated identifier is already a key of the map: rejection
  `collision`.
* Otherwise the write of the identifier fails: rejection `write`.
* Otherwise the queue has no free slot: rejection `queueFull` (the identifier
  was written).
* Otherwise the connection is registered: the identifier was written to the
  peer, it is appended to the queue and bound in the map to the (possibly
  TLS-wrapped) accepted connection, and nothing is closed.
In every rejection the pool - map and queue included - is exactly the pool
before the call and `Close()` is called exactly once, on the accepted
connection (its TLS wrapper once the handshake succeeded, same descriptor).
A failed write therefore never registers anything. -/
theorem C9_handleConnection_registers_or_rejects (env : AcceptEnv) (p : Pool) :
    (p.Active ≥ p.maxCap ∧
      (handleConnection env p).rejected = some Reject.poolFull ∧
      (handleConnection env p).pool = p ∧ (handleConnection env p).written = none ∧
      (handleConnection env p).closed = [env.conn]) ∨
    (p.Active < p.maxCap ∧ (p.clientIP ≠ "" ∧ env.remoteIP ≠ p.clientIP) ∧
      (handleConnection env p).rejected = some Reject.address ∧
      (handleConnection env p).pool = p ∧ (handleConnection env p).written = none ∧
      (handleConnection env p).closed = [env.conn]) ∨
    (p.Active < p.maxCap ∧ ¬ (p.clientIP ≠ "" ∧ env.remoteIP ≠ p.clientIP) ∧
      ((p.tlsConfig = true ∧ env.handshake = false ∧
          (handleConnection env p).rejected = some Reject.handshake ∧
          (handleConnection env p).pool = p ∧ (handleConnection env p).written = none ∧
          (handleConnection env p).closed = [env.conn]) ∨
        ((p.tlsConfig = false ∨ env.handshake = true) ∧
          (acceptedConn env p).fd = env.conn.fd ∧
          ((env.rand = none ∧
              (handleConnection env p).rejected = some Reject.random ∧
              (handleConnection env p).pool = p ∧ (handleConnection env p).written = none ∧
              (handleConnection env p).closed = [acceptedConn env p]) ∨
            ∃ rawID, env.rand = some rawID ∧
              ((rawID.id ∈ ConnMap.keys p.conns ∧
                  (handleConnection env p).rejected = some Reject.collision ∧
                  (handleConnection env p).pool = p ∧
                  (handleConnection env p).written = none ∧
                  (handleConnection env p).closed = [acceptedConn env p]) ∨
                (rawID.id ∉ ConnMap.keys p.conns ∧ env.write = false ∧
                  (handleConnection env p).rejected = some Reject.write ∧
                  (handleConnection env p).pool = p ∧
                  (handleConnection env p).written = none ∧
                  (handleConnection env p).closed = [acceptedConn env p]) ∨
                (rawID.id ∉ ConnMap.keys p.conns ∧ env.write = true ∧
                  p.idChan.cap ≤ p.idChan.buf.length ∧
                  (handleConnection env p).rejected = some Reject.queueFull ∧
                  (handleConnection env p).pool = p ∧
                  (handleConnection env p).written = some rawID ∧
                  (handleConnection env p).closed = [acceptedConn env p]) ∨
                (rawID.id ∉ ConnMap.keys p.conns ∧ env.write = true ∧
                  p.idChan.buf.length < p.idChan.cap ∧
                  (handleConnection env p).rejected = none ∧
                  (handleConnection env p).written = some rawID ∧
                  (handleConnection env p).pool = p.register rawID.id (acceptedConn env p) ∧
                  (handleConnection env p).pool.idChan.buf = p.idChan.buf ++ [rawID.id] ∧
                  (handleConnection env p).pool.idChan.cap = p.idChan.cap ∧
                  (handleConnection env p).pool.conns =
                    p.conns ++ [(rawID.id, acceptedConn env p)] ∧
                  (handleConnection env p).closed = [])))))) := by
  by_cases h1 : p.Active ≥ p.maxCap
  · have e : handleConnection env p =
        HandleResult.mk p (some Reject.poolFull) none [env.conn] := by
      unfold handleConnection
      rw [if_pos h1]
    rw [e]
    exact Or.inl ⟨h1, rfl, rfl, rfl, rfl⟩
  refine Or.inr ?_
  by_cases h2 : p.clientIP ≠ "" ∧ env.remoteIP ≠ p.clientIP
  · have e : handleConnection env p =
        HandleResult.mk p (some Reject.address) none [env.conn] := by
      unfold handleConnection
      rw [if_neg h1, if_pos h2]
    rw [e]
    exact Or.inl ⟨lt_of_not_ge h1, h2, rfl, rfl, rfl, rfl⟩
  refine Or.inr ⟨lt_of_not_ge h1, h2, ?_⟩
  by_cases h3 : p.tlsConfig = true ∧ env.handshake = false
  · have e : handleConnection env p =
        HandleResult.mk p (some Reject.handshake) none [env.conn] := by
      unfold handleConnection
      rw [if_neg h1, if_neg h2]
      simp only [h3.1, h3.2, if_true, Bool.false_eq_true, if_false]
    rw [e]
    exact Or.inl ⟨h3.1, h3.2, rfl, rfl, rfl, rfl⟩
  have hacc : (if p.tlsConfig = true then
      (if env.handshake = true then some env.conn.wrapTLS else none)
      else some env.conn) = some (acceptedConn env p) := by
    unfold acceptedConn
    by_cases ht : p.tlsConfig = true
    · have hh : env.handshake = true := by
        cases hv : env.handshake
        · exact absurd ⟨ht, hv⟩ h3
        · rfl
      rw [if_pos ht, if_pos hh, if_pos ht]
    · rw [if_neg ht, if_neg ht]
  have hdisj : p.tlsConfig = false ∨ env.handshake = true := by
    cases ht : p.tlsConfig
    · exact Or.inl rfl
    · cases hv : env.handshake
      · exact absurd ⟨ht, hv⟩ h3
      · exact Or.inr rfl
  have hfd : (acceptedConn env p).fd = env.conn.fd := by
    unfold acceptedConn
    split_ifs <;> rfl
  refine Or.inr ⟨hdisj, hfd, ?_⟩
  cases hr : env.rand with
  | none =>
    have e : handleConnection env p =
        HandleResult.mk p (some Reject.random) none [acceptedConn env p] := by
      unfold handleConnection
      rw [if_neg h1, if_neg h2]
      simp only [hacc, hr]
    rw [e]
    exact Or.inl ⟨rfl, rfl, rfl, rfl, rfl⟩
  | some rawID =>
    refine Or.inr ⟨rawID, rfl, ?_⟩
    by_cases h5 : (ConnMap.Load rawID.id p.conns).isSome = true
    · have e : handleConnection env p =
        HandleResult.mk p (some Reject.collision) none [acceptedConn env p] := by
        unfold handleConnection
        rw [if_neg h1, if_neg h2]
        simp only [hacc, hr]
        rw [if_pos h5]
      rw [e]
      exact Or.inl ⟨ConnMap.Load_isSome_iff.mp h5, rfl, rfl, rfl, rfl⟩
    have hid : rawID.id ∉ ConnMap.keys p.conns :=
      fun hmem => h5 (ConnMap.Load_isSome_iff.mpr hmem)
    refine Or.inr ?_
    by_cases hw : env.write = false
    · have e : handleConnection env p =
        HandleResult.mk p (some Reject.write) none [acceptedConn env p] := by
        unfold handleConnection
        rw [if_neg h1, if_neg h2]
        simp only [hacc, hr]
        rw [if_neg h5]
        simp only [hw, Bool.not_false, if_true]
      rw [e]
      exact Or.inl ⟨hid, hw, rfl, rfl, rfl, rfl⟩
    have hw1 : env.write = true := by
      cases hv : env.write
      · exact absurd hv hw
      · rfl
    refine Or.inr ?_
    by_cases hfull : p.idChan.buf.length < p.idChan.cap
    · have e : handleConnection env p =
        HandleResult.mk (p.register rawID.id (acceptedConn env p)) none (some rawID) [] := by
        unfold handleConnection
        rw [if_neg h1, if_neg h2]
        simp only [hacc, hr]
        rw [if_neg h5]
        simp only [hw1, Bool.not_true, Bool.false_eq_true, if_false, Chan.trySend]
        rw [if_pos hfull]
        rfl
      rw [e]
      refine Or.inr ⟨hid, hw1, hfull, rfl, rfl, rfl, rfl, rfl, ?_, rfl⟩
      exact ConnMap.Store_of_not_mem hid
    · have e : handleConnection env p =
        HandleResult.mk p (some Reject.queueFull) (some rawID) [acceptedConn env p] := by
        unfold handleConnection
        rw [if_neg h1, if_neg h2]
        simp only [hacc, hr]
        rw [if_neg h5]
        simp only [hw1, Bool.not_true, Bool.false_eq_true, if_false, Chan.trySend]
        rw [if_neg hfull]
      rw [e]
      exact Or.inl ⟨hid, hw1, Nat.le_of_not_lt hfull, rfl, rfl, rfl, rfl⟩

/-- The failed-write case on a fresh server pool (`maxCap = 3`, no allow-list,
no TLS): the pool is returned as it was - no map entry, empty queue - and the
accepted connection is closed once. -/
theorem handleConnection_write_failure_example :
    NewServerPool 3 "" false true = some serverPool3 ∧
    (handleConnection (acceptN 7 1 false) serverPool3).pool = serverPool3 ∧
    (handleConnection (acceptN 7 1 false) serverPool3).rejected = some Reject.write ∧
    (handleConnection (acceptN 7 1 false) serverPool3).closed = [{ fd := 7, tls := false }] ∧
    (handleConnection (acceptN 8 1 true) serverPool3).rejected = none ∧
    (handleConnection (acceptN 8 1 true) serverPool3).pool.idChan.buf = ["00000001"] := by
  decide

/-- When the identifier read is not yet a key of the map and the queue is full,
`createConnection` reports failure, closes the new connection and returns the
pool it was given. -/
theorem createConnection_queue_full_of_fresh (env : DialEnv) (p : Pool) (buf : RawID)
    (hr : env.read = some buf) (hid : buf.id ∉ ConnMap.keys p.conns)
    (hfull : p.idChan.cap ≤ p.idChan.buf.length) :
    (createConnection env p).pool = p ∧ (createConnection env p).ok = false := by
  have hnot : ¬ p.idChan.buf.length < p.idChan.cap := by omega
  unfold createConnection
  cases hd : env.dial with
  | none => exact ⟨rfl, rfl⟩
  | some raw =>
    simp only
    split
    · exact ⟨rfl, rfl⟩
    · simp only [hr, Chan.trySend]
      rw [if_neg hnot]
      refine ⟨?_, rfl⟩
      simp only
      rw [ConnMap.Delete_Store_of_not_mem hid]

/-- C10 (failing input): on a client pool with `maxCap = 1` whose map holds
`00000001` (descriptor 1) and whose queue is full, a `createConnection` that
dials descriptor 2 and reads the same four bytes `00 00 00 01` reports failure
and closes descriptor 2, but leaves the map empty: the entry of descriptor 1,
registered before the call, is lost (and never closed) while its token stays
in the queue. -/
theorem C10_duplicate_id_on_full_queue_drops_registered_entry :
    poolFull1.conns = [("00000001", { fd := 1, tls := false })] ∧
    poolFull1.idChan = { buf := ["00000001"], cap := 1 } ∧
    (createConnection (dialN 2 1) poolFull1).ok = false ∧
    (createConnection (dialN 2 1) poolFull1).closed = [{ fd := 2, tls := false }] ∧
    (createConnection (dialN 2 1) poolFull1).pool.conns = [] ∧
    (createConnection (dialN 2 1) poolFull1).pool.idChan.buf = ["00000001"] := by
  decide

/-- A second `createConnection` that reads an identifier already registered
overwrites the binding and adds a second token: the queue then holds two
identifiers for one map entry, and the first connection is neither registered
nor closed. -/
theorem createConnection_duplicate_id_adds_token :
    (run pool12 opsDuplicate).conns = [("00000001", { fd := 2, tls := false })] ∧
    (run pool12 opsDuplicate).idChan.buf = ["00000001", "00000001"] ∧
    (createConnection (dialN 2 1) (createConnection (dialN 1 1) pool12).pool).closed = [] := by
  decide

/-! ## The float64 expressions of the adjusters, in integer terms -/

theorem bitLenAux_lt (fuel n : Nat) (h : n ≤ fuel) : n < 2 ^ bitLenAux fuel n := by
  induction fuel generalizing n with
  | zero =>
    have : n = 0 := by omega
    subst this
    simp [bitLenAux]
  | succ f ih =>
    unfold bitLenAux
    by_cases h0 : n = 0
    · simp [h0]
    · rw [if_neg h0]
      have hle : n / 2 ≤ f := by omega
      have := ih (n / 2) hle
      rw [pow_succ]
      omega

theorem bitLenAux_le (fuel n : Nat) (h : n ≤ fuel) (h0 : n ≠ 0) :
    2 ^ (bitLenAux fuel n - 1) ≤ n := by
  induction fuel generalizing n with
  | zero => omega
  | succ f ih =>
    unfold bitLenAux
    rw [if_neg h0]
    simp only [Nat.add_sub_cancel]
    by_cases h1 : n / 2 = 0
    · have hb : bitLenAux f (n / 2) = 0 := by
        rw [h1]
        cases f <;> simp [bitLenAux]
      rw [hb]
      simp
      omega
    · have hle : n / 2 ≤ f := by omega
      have := ih (n / 2) hle h1
      have hpos : 0 < bitLenAux f (n / 2) := by
        by_contra hc
        have hz : bitLenAux f (n / 2) = 0 := by omega
        have := bitLenAux_lt f (n / 2) hle
        rw [hz] at this
        simp at this
        exact h1 this
      have hs : bitLenAux f (n / 2) = (bitLenAux f (n / 2) - 1) + 1 := by omega
      rw [hs, pow_succ]
      omega

theorem bitLen_le_of_lt {n k : Nat} (h : n < 2 ^ k) : bitLen n ≤ k := by
  unfold bitLen
  by_cases h0 : n = 0
  · subst h0
    simp [bitLenAux]
  · have h1 := bitLenAux_le n n (le_refl n) h0
    have h2 : 2 ^ (bitLenAux n n - 1) < 2 ^ k := lt_of_le_of_lt h1 h
    have h3 := (Nat.pow_lt_pow_iff_right (by norm_num : 1 < 2)).mp h2
    omega

theorem roundNE_bounds (n : Nat) (sticky : Bool) :
    n / 2 ^ (bitLen n - 53) * 2 ^ (bitLen n - 53) ≤ roundNE n sticky ∧
    roundNE n sticky ≤ n / 2 ^ (bitLen n - 53) * 2 ^ (bitLen n - 53) + 2 ^ (bitLen n - 53) := by
  unfold roundNE
  simp only
  by_cases hs : bitLen n - 53 = 0
  · rw [if_pos hs, hs]
    simp
  · rw [if_neg hs]
    split_ifs
    · constructor
      · exact Nat.mul_le_mul_right _ (Nat.le_succ _)
      · rw [Nat.add_mul, Nat.one_mul]
    · exact ⟨le_refl _, Nat.le_add_right _ _⟩

theorem float64_of_lt {n : Nat} (h : n < 2 ^ 53) : float64 n = n := by
  unfold float64 roundNE
  have : bitLen n - 53 = 0 := by
    have := bitLen_le_of_lt h
    omega
  simp [this]

/-- The rounded product stays in the same unit interval as the exact quotient:
for a constant `m / 2 ^ e` with `e >= 31` and a factor below `2 ^ 31`, if the
integer `q` satisfies `q * 2 ^ e <= n * m` and `n * m + 2 ^ 31 < (q + 1) * 2 ^ e`
then the product truncates to `q`. -/
theorem roundNE_div_eq {P e q : Nat} (hP : P < 2 ^ 84) (he : 31 ≤ e)
    (hlo : q * 2 ^ e ≤ P) (hhi : P + 2 ^ 31 < (q + 1) * 2 ^ e) :
    roundNE P false / 2 ^ e = q := by
  obtain ⟨h1, h2⟩ := roundNE_bounds P false
  have hs : bitLen P - 53 ≤ 31 := by
    have := bitLen_le_of_lt hP
    omega
  generalize bitLen P - 53 = s at h1 h2 hs
  have hse : s ≤ e := le_trans hs he
  have hpow : 2 ^ e = 2 ^ (e - s) * 2 ^ s := by
    rw [← pow_add]
    congr 1
    omega
  have hX : 2 ^ s ≤ 2 ^ 31 := Nat.pow_le_pow_right (by norm_num) hs
  have hXpos : 0 < 2 ^ s := by positivity
  have hEpos : 0 < 2 ^ e := by positivity
  -- lower bound
  have hlow : q * 2 ^ e ≤ P / 2 ^ s * 2 ^ s := by
    have : q * 2 ^ (e - s) ≤ P / 2 ^ s := by
      rw [Nat.le_div_iff_mul_le hXpos, Nat.mul_assoc, ← hpow]
      exact hlo
    calc q * 2 ^ e = q * 2 ^ (e - s) * 2 ^ s := by rw [hpow, Nat.mul_assoc]
      _ ≤ P / 2 ^ s * 2 ^ s := Nat.mul_le_mul_right _ this
  have hup : P / 2 ^ s * 2 ^ s ≤ P := Nat.div_mul_le_self P (2 ^ s)
  apply Nat.div_eq_of_lt_le
  · exact le_trans hlow h1
  · calc roundNE P false ≤ P / 2 ^ s * 2 ^ s + 2 ^ s := h2
      _ ≤ P + 2 ^ 31 := Nat.add_le_add hup hX
      _ < (q + 1) * 2 ^ e := hhi

theorem scaleTrunc_natCast (n : Nat) (t : F64) :
    scaleTrunc (n : Int) t = ((roundNE (float64 n * t.m) false / 2 ^ t.e : Nat) : Int) := by
  unfold scaleTrunc
  rw [Int.natAbs_ofNat]
  simp only
  rw [if_neg (by omega)]

/-- For a capacity in `0 .. 2^31 - 1`, `int(float64(capacity) * 0.2)` is the
integer quotient `capacity / 5`. -/
theorem scaleTrunc_c02 {c : Int} (h0 : 0 ≤ c) (h1 : c < 2 ^ 31) : scaleTrunc c c02 = c / 5 := by
  obtain ⟨n, rfl⟩ := Int.eq_ofNat_of_zero_le h0
  have hn : n < 2 ^ 31 := by exact_mod_cast h1
  have hn53 : n < 2 ^ 53 := lt_of_lt_of_le hn (Nat.pow_le_pow_right (by norm_num) (by norm_num))
  rw [scaleTrunc_natCast, float64_of_lt hn53]
  have hm : c02.m = 7205759403792794 := rfl
  have he : c02.e = 55 := rfl
  rw [hm, he]
  have key : roundNE (n * 7205759403792794) false / 2 ^ 55 = n / 5 := by
    apply roundNE_div_eq
    · norm_num at hn ⊢
      omega
    · norm_num
    · norm_num
      omega
    · norm_num at hn ⊢
      omega
  rw [key]
  omega

/-- For a capacity in `0 .. 2^31 - 1`, `int(float64(capacity) * 0.8)` is the
integer quotient `4 * capacity / 5`. -/
theorem scaleTrunc_c08 {c : Int} (h0 : 0 ≤ c) (h1 : c < 2 ^ 31) :
    scaleTrunc c c08 = 4 * c / 5 := by
  obtain ⟨n, rfl⟩ := Int.eq_ofNat_of_zero_le h0
  have hn : n < 2 ^ 31 := by exact_mod_cast h1
  have hn53 : n < 2 ^ 53 := lt_of_lt_of_le hn (Nat.pow_le_pow_right (by norm_num) (by norm_num))
  rw [scaleTrunc_natCast, float64_of_lt hn53]
  have hm : c08.m = 7205759403792794 := rfl
  have he : c08.e = 53 := rfl
  rw [hm, he]
  have key : roundNE (n * 7205759403792794) false / 2 ^ 53 = 4 * n / 5 := by
    apply roundNE_div_eq
    · norm_num at hn ⊢
      omega
    · norm_num
    · norm_num
      omega
    · norm_num at hn ⊢
      omega
  rw [key]
  omega

theorem ratioLess_zero {capacity : Int} (t : F64) (h : capacity ≠ 0) :
    ratioLess 0 capacity t = true := by
  simp [ratioLess, h]

theorem ratioGreater_zero (capacity : Int) (t : F64) : ratioGreater 0 capacity t = false := by
  unfold ratioGreater
  by_cases h : capacity = 0
  · simp [h]
  · simp [h]

theorem bitLen_pow_le {n : Nat} (h0 : n ≠ 0) : 2 ^ (bitLen n - 1) ≤ n :=
  bitLenAux_le n n (le_refl n) h0

theorem lt_pow_bitLen (n : Nat) : n < 2 ^ bitLen n := bitLenAux_lt n n (le_refl n)

/-- Error bound of the rounding: for `Q >= 2 ^ 53` the rounded value differs
from `Q` by at most one unit `E` of the last kept place, and `E * 2 ^ 52 <= Q`. -/
theorem roundNE_error {Q : Nat} (sticky : Bool) (hQ : 2 ^ 53 ≤ Q) :
    ∃ E, roundNE Q sticky ≤ Q + E ∧ Q < roundNE Q sticky + E ∧ E * 2 ^ 52 ≤ Q := by
  obtain ⟨h1, h2⟩ := roundNE_bounds Q sticky
  have hlen : 53 < bitLen Q := by
    have := lt_pow_bitLen Q
    have h3 : 2 ^ 53 < 2 ^ bitLen Q := lt_of_le_of_lt hQ this
    exact (Nat.pow_lt_pow_iff_right (by norm_num : 1 < 2)).mp h3
  have hne : Q ≠ 0 := by
    intro h
    rw [h] at hQ
    norm_num at hQ
  have hlow := bitLen_pow_le hne
  refine ⟨2 ^ (bitLen Q - 53), ?_, ?_, ?_⟩
  · have := Nat.div_mul_le_self Q (2 ^ (bitLen Q - 53))
    omega
  · have hpos : 0 < 2 ^ (bitLen Q - 53) := by positivity
    have := Nat.lt_div_mul_add (a := Q) hpos
    omega
  · rw [← pow_add]
    have : bitLen Q - 53 + 52 = bitLen Q - 1 := by omega
    rw [this]
    exact hlow

theorem fdiv_error {x y : Nat} (hx : 1 ≤ x) (hy : 1 ≤ y) (hy31 : y ≤ 2 ^ 31) :
    ∃ E, (fdiv x y).m ≤ x * 2 ^ 128 / y + E ∧ x * 2 ^ 128 / y < (fdiv x y).m + E ∧
      E * 2 ^ 52 ≤ x * 2 ^ 128 / y := by
  have hQ : 2 ^ 53 ≤ x * 2 ^ 128 / y := by
    rw [Nat.le_div_iff_mul_le (by omega)]
    calc 2 ^ 53 * y ≤ 2 ^ 53 * 2 ^ 31 := Nat.mul_le_mul_left _ hy31
      _ ≤ 1 * 2 ^ 128 := by norm_num
      _ ≤ x * 2 ^ 128 := Nat.mul_le_mul_right _ hx
  exact roundNE_error _ hQ

theorem quot_upper {x y Q k : Nat} (hQ : Q * y ≤ x * 2 ^ 128) (h : 5 * x + 1 ≤ k * y)
    (hy31 : y ≤ 2 ^ 31) : 5 * Q + 2 ^ 97 ≤ k * 2 ^ 128 := by
  by_contra hc
  have hc2 : k * 2 ^ 128 + 1 ≤ 5 * Q + 2 ^ 97 := by omega
  have h1 := Nat.mul_le_mul_right y hc2
  have h2 := Nat.mul_le_mul_right (2 ^ 128) h
  have h3 := Nat.mul_le_mul_left (2 ^ 97) hy31
  have e1 : (k * 2 ^ 128 + 1) * y = (k * y) * 2 ^ 128 + y := by ring
  have e2 : (5 * Q + 2 ^ 97) * y = 5 * (Q * y) + 2 ^ 97 * y := by ring
  have e3 : (5 * x + 1) * 2 ^ 128 = 5 * (x * 2 ^ 128) + 2 ^ 128 := by ring
  rw [e1, e2] at h1
  rw [e3] at h2
  have hy0 : 1 ≤ y := by
    rcases Nat.eq_zero_or_pos y with h0 | h0
    · subst h0
      omega
    · exact h0
  generalize Q * y = P at *
  generalize k * y = W at *
  generalize x * 2 ^ 128 = X at *
  norm_num at *
  omega

theorem quot_lower {x y Q k : Nat} (hQ : x * 2 ^ 128 < (Q + 1) * y) (h : k * y + 1 ≤ 5 * x)
    (hy31 : y ≤ 2 ^ 31) : k * 2 ^ 128 + 2 ^ 97 ≤ 5 * Q + 4 := by
  by_contra hc
  have hc2 : 5 * Q + 5 ≤ k * 2 ^ 128 + 2 ^ 97 := by omega
  have h1 := Nat.mul_le_mul_right y hc2
  have h2 := Nat.mul_le_mul_right (2 ^ 128) h
  have h3 := Nat.mul_le_mul_left (2 ^ 97) hy31
  have e1 : (5 * Q + 5) * y = 5 * ((Q + 1) * y) := by ring
  have e2 : (k * 2 ^ 128 + 2 ^ 97) * y = (k * y) * 2 ^ 128 + 2 ^ 97 * y := by ring
  have e3 : (k * y + 1) * 2 ^ 128 = (k * y) * 2 ^ 128 + 2 ^ 128 := by ring
  have e4 : 5 * x * 2 ^ 128 = 5 * (x * 2 ^ 128) := by ring
  rw [e1, e2] at h1
  rw [e3, e4] at h2
  generalize (Q + 1) * y = P at *
  generalize k * y = W at *
  generalize x * 2 ^ 128 = X at *
  norm_num at *
  omega

set_option maxRecDepth 100000 in
theorem roundNE_fifth : roundNE (2 ^ 128 / 5) true = 7205759403792794 * 2 ^ 73 := by decide

set_option maxRecDepth 100000 in
theorem roundNE_four_fifths : roundNE (4 * 2 ^ 128 / 5) true = 7205759403792794 * 2 ^ 75 := by
  decide

/-- The float comparison `x / y < 0.2` agrees with the exact one. -/
theorem fdiv_lt_c02 {x y : Nat} (hx : 1 ≤ x) (hy : 1 ≤ y) (hy31 : y ≤ 2 ^ 31) :
    F64.lt (fdiv x y) c02 = decide (5 * x < y) := by
  obtain ⟨E, h1, h2, h3⟩ := fdiv_error hx hy hy31
  have hQ1 : x * 2 ^ 128 / y * y ≤ x * 2 ^ 128 := Nat.div_mul_le_self _ _
  have hQ2 : x * 2 ^ 128 < (x * 2 ^ 128 / y + 1) * y :=
    (Nat.div_lt_iff_lt_mul (by omega)).mp (Nat.lt_succ_self _)
  have he : (fdiv x y).e = 128 := rfl
  have hm : c02.m = 7205759403792794 := rfl
  have hce : c02.e = 55 := rfl
  unfold F64.lt
  rw [he, hm, hce]
  rcases lt_trichotomy (5 * x) y with hlt | heq | hgt
  · have hq := quot_upper (k := 1) hQ1 (by omega) hy31
    have : (fdiv x y).m * 2 ^ 55 < 7205759403792794 * 2 ^ 128 := by
      generalize x * 2 ^ 128 / y = Q at *
      generalize (fdiv x y).m = m at *
      norm_num at *
      omega
    rw [decide_eq_true this, decide_eq_true hlt]
  · have hmv : (fdiv x y).m = 7205759403792794 * 2 ^ 73 := by
      unfold fdiv
      simp only
      have e1 : x * 2 ^ 128 / y = 2 ^ 128 / 5 := by
        rw [← heq, Nat.mul_comm 5 x]
        exact Nat.mul_div_mul_left _ _ (by omega)
      have e2 : x * 2 ^ 128 % y = x * (2 ^ 128 % 5) := by
        rw [← heq, Nat.mul_comm 5 x]
        exact Nat.mul_mod_mul_left _ _ _
      have e3 : decide (x * 2 ^ 128 % y ≠ 0) = true := by
        rw [e2]
        have : (2 : Nat) ^ 128 % 5 = 1 := by norm_num
        rw [this]
        simp
        omega
      rw [e1, e3]
      exact roundNE_fifth
    rw [hmv]
    have hnot : ¬ 5 * x < y := by omega
    rw [decide_eq_false hnot]
    exact decide_eq_false (by norm_num)
  · have hq := quot_lower (k := 1) hQ2 (by omega) hy31
    have : ¬ (fdiv x y).m * 2 ^ 55 < 7205759403792794 * 2 ^ 128 := by
      generalize x * 2 ^ 128 / y = Q at *
      generalize (fdiv x y).m = m at *
      norm_num at *
      omega
    have hnot : ¬ 5 * x < y := by omega
    rw [decide_eq_false this, decide_eq_false hnot]

/-- The float comparison `x / y > 0.8` agrees with the exact one. -/
theorem c08_lt_fdiv {x y : Nat} (hx : 1 ≤ x) (hy : 1 ≤ y) (hy31 : y ≤ 2 ^ 31) :
    F64.lt c08 (fdiv x y) = decide (4 * y < 5 * x) := by
  obtain ⟨E, h1, h2, h3⟩ := fdiv_error hx hy hy31
  have hQ1 : x * 2 ^ 128 / y * y ≤ x * 2 ^ 128 := Nat.div_mul_le_self _ _
  have hQ2 : x * 2 ^ 128 < (x * 2 ^ 128 / y + 1) * y :=
    (Nat.div_lt_iff_lt_mul (by omega)).mp (Nat.lt_succ_self _)
  have he : (fdiv x y).e = 128 := rfl
  have hm : c08.m = 7205759403792794 := rfl
  have hce : c08.e = 53 := rfl
  unfold F64.lt
  rw [he, hm, hce]
  rcases lt_trichotomy (5 * x) (4 * y) with hlt | heq | hgt
  · have hq := quot_upper (k := 4) hQ1 (by omega) hy31
    have : ¬ 7205759403792794 * 2 ^ 128 < (fdiv x y).m * 2 ^ 53 := by
      generalize x * 2 ^ 128 / y = Q at *
      generalize (fdiv x y).m = m at *
      norm_num at *
      omega
    have hnot : ¬ 4 * y < 5 * x := by omega
    rw [decide_eq_false this, decide_eq_false hnot]
  · have hmv : (fdiv x y).m = 7205759403792794 * 2 ^ 75 := by
      unfold fdiv
      simp only
      have hx4 : x = (x / 4) * 4 := by omega
      have hy5 : y = (x / 4) * 5 := by omega
      have hk : 0 < x / 4 := by omega
      have e1 : x * 2 ^ 128 / y = 4 * 2 ^ 128 / 5 := by
        rw [hy5]
        nth_rewrite 1 [hx4]
        rw [Nat.mul_assoc]
        exact Nat.mul_div_mul_left _ _ hk
      have e2 : x * 2 ^ 128 % y = (x / 4) * (4 * 2 ^ 128 % 5) := by
        rw [hy5]
        nth_rewrite 1 [hx4]
        rw [Nat.mul_assoc]
        exact Nat.mul_mod_mul_left _ _ _
      have e3 : decide (x * 2 ^ 128 % y ≠ 0) = true := by
        rw [e2]
        have : 4 * (2 : Nat) ^ 128 % 5 = 4 := by norm_num
        rw [this]
        simp
        omega
      rw [e1, e3]
      exact roundNE_four_fifths
    rw [hmv]
    have hnot : ¬ 4 * y < 5 * x := by omega
    rw [decide_eq_false hnot]
    exact decide_eq_false (by norm_num)
  · have hq := quot_lower (k := 4) hQ2 (by omega) hy31
    have : 7205759403792794 * 2 ^ 128 < (fdiv x y).m * 2 ^ 53 := by
      generalize x * 2 ^ 128 / y = Q at *
      generalize (fdiv x y).m = m at *
      norm_num at *
      omega
    rw [decide_eq_true this, decide_eq_true hgt]

theorem float64_ge_of_ge {n : Nat} (h : 2 ^ 53 ≤ n) : 2 ^ 52 ≤ float64 n := by
  obtain ⟨E, _, h2, h3⟩ := roundNE_error false h
  unfold float64
  generalize roundNE n false = a at *
  norm_num at *
  omega

/-- The operands of the float division, for a positive `created` and a
capacity in `1 .. 2^31 - 1`: the divisor is exact, the dividend is at least
one, and the exact comparisons of `5 * created` with `k * capacity` are not
changed by the rounding of `float64(created)`. -/
theorem float64_operands {n c k : Nat} (hn : 1 ≤ n) (hc31 : c < 2 ^ 31) (hk : k ≤ 4) :
    float64 c = c ∧ 1 ≤ float64 n ∧
    (5 * float64 n < k * c ↔ 5 * n < k * c) ∧ (k * c < 5 * float64 n ↔ k * c < 5 * n) := by
  have hc53 : c < 2 ^ 53 := lt_of_lt_of_le hc31 (Nat.pow_le_pow_right (by norm_num) (by norm_num))
  refine ⟨float64_of_lt hc53, ?_⟩
  by_cases hs : n < 2 ^ 53
  · rw [float64_of_lt hs]
    exact ⟨hn, Iff.rfl, Iff.rfl⟩
  · have h1 := float64_ge_of_ge (by omega : 2 ^ 53 ≤ n)
    have hkc : k * c ≤ 4 * c := Nat.mul_le_mul_right c hk
    generalize k * c = W at *
    generalize float64 n = a at *
    norm_num at *
    omega

/-- For `created >= 0` and a capacity in `1 .. 2^31 - 1` the float comparison
`float64(created) / float64(capacity) < 0.2` is the exact comparison
`5 * created < capacity`. -/
theorem ratioLess_c02 {created capacity : Int} (h0 : 0 ≤ created) (hc : 1 ≤ capacity)
    (hc31 : capacity < 2 ^ 31) : ratioLess created capacity c02 = decide (5 * created < capacity) := by
  obtain ⟨n, rfl⟩ := Int.eq_ofNat_of_zero_le h0
  obtain ⟨c, rfl⟩ := Int.eq_ofNat_of_zero_le (by omega : 0 ≤ capacity)
  have hc1 : 1 ≤ c := by exact_mod_cast hc
  have hc2 : c < 2 ^ 31 := by exact_mod_cast hc31
  unfold ratioLess
  rw [if_neg (by omega)]
  by_cases hn : n = 0
  · subst hn
    simp only [Nat.cast_zero, if_true]
    exact (decide_eq_true (by omega)).symm
  · rw [if_neg (by omega)]
    have hsign : (decide ((n : Int) < 0) != decide ((c : Int) < 0)) = false := by
      rw [decide_eq_false (by omega), decide_eq_false (by omega)]
      rfl
    obtain ⟨e1, e2, e3, _⟩ := float64_operands (n := n) (c := c) (k := 1) (by omega) hc2 (by omega)
    simp only [hsign, Bool.false_eq_true, if_false, Int.natAbs_ofNat, e1]
    rw [fdiv_lt_c02 e2 hc1 (by omega)]
    simp only [Nat.one_mul] at e3
    by_cases h : 5 * n < c
    · rw [decide_eq_true (e3.mpr h), decide_eq_true (by omega)]
    · rw [decide_eq_false (fun h2 => h (e3.mp h2)), decide_eq_false (by omega)]

/-- For `created >= 0` and a capacity in `1 .. 2^31 - 1` the float comparison
`float64(created) / float64(capacity) > 0.8` is the exact comparison
`5 * created > 4 * capacity`. -/
theorem ratioGreater_c08 {created capacity : Int} (h0 : 0 ≤ created) (hc : 1 ≤ capacity)
    (hc31 : capacity < 2 ^ 31) :
    ratioGreater created capacity c08 = decide (4 * capacity < 5 * created) := by
  obtain ⟨n, rfl⟩ := Int.eq_ofNat_of_zero_le h0
  obtain ⟨c, rfl⟩ := Int.eq_ofNat_of_zero_le (by omega : 0 ≤ capacity)
  have hc1 : 1 ≤ c := by exact_mod_cast hc
  have hc2 : c < 2 ^ 31 := by exact_mod_cast hc31
  unfold ratioGreater
  rw [if_neg (by omega)]
  by_cases hn : n = 0
  · subst hn
    simp only [Nat.cast_zero, if_true]
    exact (decide_eq_false (by omega)).symm
  · rw [if_neg (by omega)]
    have hsign : (decide ((n : Int) < 0) != decide ((c : Int) < 0)) = false := by
      rw [decide_eq_false (by omega), decide_eq_false (by omega)]
      rfl
    obtain ⟨e1, e2, _, e4⟩ := float64_operands (n := n) (c := c) (k := 4) (by omega) hc2 (by omega)
    simp only [hsign, Bool.false_eq_true, if_false, Int.natAbs_ofNat, e1]
    rw [c08_lt_fdiv e2 hc1 (by omega)]
    by_cases h : 4 * c < 5 * n
    · rw [decide_eq_true (e4.mpr h), decide_eq_true (by omega)]
    · rw [decide_eq_false (fun h2 => h (e4.mp h2)), decide_eq_false (by omega)]

/-! ## Adaptive controller -/

theorem wrap64_of_InInt64 {x : Int} (h : InInt64 x) : wrap64 x = x := by
  unfold InInt64 at h
  unfold wrap64
  omega

theorem wrap32_of_InInt32 {x : Int} (h : InInt32 x) : wrap32 x = x := by
  unfold InInt32 at h
  unfold wrap32
  omega

/-- The interval stored by `adjustInterval`, in integer terms, when the
capacity is a non-negative `int32` and neither `interval - step` nor
`interval + step` leaves the `int64` range. -/
theorem adjustInterval_eq (p : Pool) (hcap : 0 ≤ p.capacity) (hcap32 : p.capacity < 2 ^ 31)
    (hlo : InInt64 (p.interval - intervalAdjustStep))
    (hhi : InInt64 (p.interval + intervalAdjustStep)) :
    adjustInterval p =
      { p with interval :=
          if (p.idChan.len : Int) < p.capacity / 5 ∧ p.interval > p.minIvl then
            max (p.interval - intervalAdjustStep) p.minIvl
          else if (p.idChan.len : Int) > 4 * p.capacity / 5 ∧ p.interval < p.maxIvl then
            min (p.interval + intervalAdjustStep) p.maxIvl
          else p.interval } := by
  unfold adjustInterval
  simp only [scaleTrunc_c02 hcap hcap32, scaleTrunc_c08 hcap hcap32, wrap64_of_InInt64 hlo,
    wrap64_of_InInt64 hhi]
  by_cases h1 : (p.idChan.len : Int) < p.capacity / 5 ∧ p.interval > p.minIvl
  · have h2 : ¬ ((p.idChan.len : Int) > 4 * p.capacity / 5 ∧ p.interval < p.maxIvl) := by
      intro h
      omega
    rw [if_pos h1, if_neg h2, if_pos h1]
  · by_cases h2 : (p.idChan.len : Int) > 4 * p.capacity / 5 ∧ p.interval < p.maxIvl
    · rw [if_neg h1, if_pos h2, if_neg h1, if_pos h2]
    · rw [if_neg h1, if_neg h2, if_neg h1, if_neg h2]

/-- C3 (as stated, refuted): in the pool `poolDrained` (capacity 1, idle 0,
interval 500ms, `minIvl` 100ms) the idle count is below the exact product
`0.2 * capacity` (`5 * idle < capacity`) and the interval is above `minIvl`,
yet `adjustInterval` leaves the interval at 500ms instead of lowering it to
`max(interval - step, minIvl)` = 400ms: the code compares with
`int(float64(capacity) * 0.2)`, which is 0. -/
theorem C3_exact_threshold_not_used :
    poolDrained.capacity = 1 ∧ poolDrained.idChan.len = 0 ∧
    poolDrained.interval = 500 * ms ∧ poolDrained.minIvl = 100 * ms ∧
    5 * (poolDrained.idChan.len : Int) < poolDrained.capacity ∧
    poolDrained.interval > poolDrained.minIvl ∧
    (adjustInterval poolDrained).interval = 500 * ms ∧
    max (poolDrained.interval - intervalAdjustStep) poolDrained.minIvl = 400 * ms := by
  decide

/-- C3 (amended): for a client pool with `1 <= capacity` (an `int32`),
`idle` the queue length, and an interval for which `interval - step` and
`interval + step` are still `int64` values, `adjustInterval` changes only the
interval: it becomes `max(interval - step, minIvl)` when
`idle < floor(capacity / 5)` and `interval > minIvl`, it becomes
`min(interval + step, maxIvl)` when `idle > floor(4 * capacity / 5)` and
`interval < maxIvl`, and it is unchanged otherwise.  The thresholds are the
truncated integers `int(0.2 * capacity)` and `int(0.8 * capacity)`, not the
exact products. -/
theorem C3_adjustInterval_truncated_thresholds (p : Pool)
    (hcap : 1 ≤ p.capacity) (hcap32 : p.capacity < 2 ^ 31)
    (hlo : InInt64 (p.interval - intervalAdjustStep))
    (hhi : InInt64 (p.interval + intervalAdjustStep)) :
    adjustInterval p =
      { p with interval :=
          if (p.idChan.len : Int) < p.capacity / 5 ∧ p.interval > p.minIvl then
            max (p.interval - intervalAdjustStep) p.minIvl
          else if (p.idChan.len : Int) > 4 * p.capacity / 5 ∧ p.interval < p.maxIvl then
            min (p.interval + intervalAdjustStep) p.maxIvl
          else p.interval } :=
  adjustInterval_eq p (by omega) hcap32 hlo hhi

/-- C3 (amended), instance: capacity 10, idle 1, interval 500ms, `minIvl`
100ms gives 400ms. -/
theorem C3_adjustInterval_truncated_thresholds_witness :
    ((1 : Int) ≤ poolExample.capacity ∧ poolExample.capacity < 2 ^ 31 ∧
      InInt64 (poolExample.interval - intervalAdjustStep) ∧
      InInt64 (poolExample.interval + intervalAdjustStep)) ∧
    poolExample.capacity = 10 ∧ poolExample.idChan.len = 1 ∧
    poolExample.interval = 500 * ms ∧ poolExample.minIvl = 100 * ms ∧
    (adjustInterval poolExample).interval = 400 * ms := by
  refine ⟨by decide, by decide, by decide, by decide, by decide, ?_⟩
  rw [C3_adjustInterval_truncated_thresholds poolExample (by decide) (by decide) (by decide)
    (by decide)]
  decide

theorem adjustInterval_fields (p : Pool) :
    (adjustInterval p).idChan = p.idChan ∧ (adjustInterval p).conns = p.conns ∧
    (adjustInterval p).capacity = p.capacity ∧ (adjustInterval p).minCap = p.minCap ∧
    (adjustInterval p).maxCap = p.maxCap ∧ (adjustInterval p).minIvl = p.minIvl ∧
    (adjustInterval p).maxIvl = p.maxIvl := by
  unfold adjustInterval
  simp only
  split_ifs <;> simp

theorem adjustCapacity_fields (created : Int) (p : Pool) :
    (adjustCapacity created p).idChan = p.idChan ∧ (adjustCapacity created p).conns = p.conns ∧
    (adjustCapacity created p).interval = p.interval ∧
    (adjustCapacity created p).minCap = p.minCap ∧
    (adjustCapacity created p).maxCap = p.maxCap ∧
    (adjustCapacity created p).minIvl = p.minIvl ∧
    (adjustCapacity created p).maxIvl = p.maxIvl := by
  unfold adjustCapacity
  simp only
  split_ifs <;> simp

/-- With an empty queue `adjustInterval` never raises the interval. -/
theorem adjustInterval_idle_zero (p : Pool) (hq : p.idChan.buf = [])
    (hcap : 0 ≤ p.capacity) (hcap32 : p.capacity < 2 ^ 31)
    (hmin : 0 ≤ p.minIvl) (hivl : p.minIvl ≤ p.interval) (h64 : p.interval < 2 ^ 63) :
    p.minIvl ≤ (adjustInterval p).interval ∧ (adjustInterval p).interval ≤ p.interval := by
  have hlen : (p.idChan.len : Int) = 0 := by simp [Chan.len, hq]
  have hw : wrap64 (p.interval - intervalAdjustStep) = p.interval - intervalAdjustStep := by
    apply wrap64_of_InInt64
    unfold InInt64 intervalAdjustStep
    omega
  unfold adjustInterval
  simp only [hlen, scaleTrunc_c02 hcap hcap32, scaleTrunc_c08 hcap hcap32, hw]
  have h2 : ¬ ((0 : Int) > 4 * p.capacity / 5 ∧ p.interval < p.maxIvl) := by
    intro h
    omega
  rw [if_neg h2]
  split_ifs
  · simp only [intervalAdjustStep]
    omega
  · exact ⟨hivl, le_refl _⟩

/-- With `created = 0`, `adjustCapacity` lowers the capacity by one unless it is
already `minCap`. -/
theorem adjustCapacity_created_zero (p : Pool) (hmin : 1 ≤ p.minCap)
    (hcap : p.minCap ≤ p.capacity) (hcap32 : p.capacity < 2 ^ 31) :
    (adjustCapacity 0 p).capacity = max (p.capacity - 1) p.minCap := by
  have hne : p.capacity ≠ 0 := by omega
  unfold adjustCapacity
  simp only [ratioLess_zero c02 hne, ratioGreater_zero, true_and, Bool.false_eq_true, false_and,
    if_false]
  split_ifs with h
  · have hw : wrap32 (p.capacity + -1) = p.capacity - 1 := by
      unfold wrap32
      omega
    simp only [hw]
    omega
  · omega

theorem starvedIteration_spec (p : Pool) (hq : p.idChan.buf = []) (hmin : 1 ≤ p.minCap)
    (hcap : p.minCap ≤ p.capacity) (hcap32 : p.capacity < 2 ^ 31)
    (hmin0 : 0 ≤ p.minIvl) (hivl : p.minIvl ≤ p.interval) (h64 : p.interval < 2 ^ 63) :
    (starvedIteration p).idChan = p.idChan ∧
    (starvedIteration p).minCap = p.minCap ∧
    (starvedIteration p).minIvl = p.minIvl ∧
    (starvedIteration p).maxIvl = p.maxIvl ∧
    (starvedIteration p).capacity = max (p.capacity - 1) p.minCap ∧
    p.minIvl ≤ (starvedIteration p).interval ∧
    (starvedIteration p).interval ≤ p.interval := by
  obtain ⟨i1, _, i3, i4, _, i6, i7⟩ := adjustInterval_fields p
  obtain ⟨c1, _, c3, c4, _, c6, c7⟩ := adjustCapacity_fields 0 (adjustInterval p)
  have hI := adjustInterval_idle_zero p hq (by omega) hcap32 hmin0 hivl h64
  have hC := adjustCapacity_created_zero (adjustInterval p) (by rw [i4]; exact hmin)
    (by rw [i4, i3]; exact hcap) (by rw [i3]; exact hcap32)
  unfold starvedIteration
  refine ⟨by rw [c1, i1], by rw [c4, i4], by rw [c6, i6], by rw [c7, i7], ?_, ?_, ?_⟩
  · rw [hC, i3, i4]
  · rw [c3]
    exact hI.1
  · rw [c3]
    exact hI.2

theorem starved_spec (n : Nat) (p : Pool) (hq : p.idChan.buf = []) (hmin : 1 ≤ p.minCap)
    (hcap : p.minCap ≤ p.capacity) (hcap32 : p.capacity < 2 ^ 31)
    (hmin0 : 0 ≤ p.minIvl) (hivl : p.minIvl ≤ p.interval) (h64 : p.interval < 2 ^ 63) :
    (starved n p).capacity = max (p.capacity - n) p.minCap ∧
    p.minIvl ≤ (starved n p).interval ∧
    (starved n p).interval ≤ p.interval := by
  induction n generalizing p with
  | zero =>
    simp only [starved]
    refine ⟨?_, hivl, le_refl _⟩
    simp only [Nat.cast_zero, sub_zero]
    omega
  | succ k ih =>
    obtain ⟨s1, s2, s3, _, s5, s6, s7⟩ :=
      starvedIteration_spec p hq hmin hcap hcap32 hmin0 hivl h64
    have hih := ih (starvedIteration p) (by rw [s1]; exact hq) (by rw [s2]; exact hmin)
      (by rw [s2, s5]; omega) (by rw [s5]; omega) (by rw [s3]; exact hmin0)
      (by rw [s3]; exact s6) (by omega)
    simp only [starved]
    rw [s2, s3, s5] at hih
    refine ⟨?_, hih.2.1, le_trans hih.2.2 s7⟩
    rw [hih.1]
    push_cast
    omega

/-- C7 (as stated, refuted): the freshly constructed pool `poolStarving`
(`minIvl` 100ms, `maxIvl` 1s, empty queue) never reaches `Interval() = maxIvl`
under iterations in which nothing is created: the interval stays at or below
its starting value of 100ms. -/
theorem C7_interval_never_reaches_maxIvl :
    ¬ ∃ n, (starved n poolStarving).Interval = poolStarving.maxIvl := by
  rintro ⟨n, hn⟩
  have h := (starved_spec n poolStarving (by decide) (by decide) (by decide) (by decide)
    (by decide) (by decide) (by decide)).2.2
  have h1 : poolStarving.interval = 100000000 := by decide
  have h2 : poolStarving.maxIvl = 1000000000 := by decide
  unfold Pool.Interval at hn
  rw [hn, h1, h2] at h
  omega

/-- C7 (amended): for a client pool whose queue stays empty and in which no
connection is created, with `1 <= minCap <= capacity` and
`0 <= minIvl <= interval`, after `n` iterations of the controller steps
(`adjustInterval`, then `adjustCapacity(0)`) the target capacity is
`max(capacity - n, minCap)` - so it equals `minCap` from iteration
`capacity - minCap` on and stays there - while the creation interval is never
raised: it stays between `minIvl` and its starting value, and so does not move
toward `maxIvl`. -/
theorem C7_starved_pool_shrinks_capacity_keeps_interval (n : Nat) (p : Pool)
    (hq : p.idChan.buf = []) (hmin : 1 ≤ p.minCap) (hcap : p.minCap ≤ p.capacity)
    (hcap32 : p.capacity < 2 ^ 31) (hmin0 : 0 ≤ p.minIvl) (hivl : p.minIvl ≤ p.interval)
    (h64 : p.interval < 2 ^ 63) :
    (starved n p).Capacity = max (p.capacity - n) p.minCap ∧
    p.minIvl ≤ (starved n p).Interval ∧
    (starved n p).Interval ≤ p.interval :=
  starved_spec n p hq hmin hcap hcap32 hmin0 hivl h64

/-- C7 (amended), instance: capacity 7, `minCap` 2, interval 500ms, five
iterations. -/
theorem C7_starved_pool_shrinks_capacity_keeps_interval_witness :
    (poolCap7.idChan.buf = [] ∧ 1 ≤ poolCap7.minCap ∧ poolCap7.minCap ≤ poolCap7.capacity ∧
      poolCap7.capacity < 2 ^ 31 ∧ 0 ≤ poolCap7.minIvl ∧
      poolCap7.minIvl ≤ poolCap7.interval ∧ poolCap7.interval < 2 ^ 63) ∧
    ((starved 5 poolCap7).Capacity = max (poolCap7.capacity - (5 : Nat)) poolCap7.minCap ∧
      poolCap7.minIvl ≤ (starved 5 poolCap7).Interval ∧
      (starved 5 poolCap7).Interval ≤ poolCap7.interval) :=
  ⟨by decide,
    C7_starved_pool_shrinks_capacity_keeps_interval 5 poolCap7 (by decide) (by decide)
      (by decide) (by decide) (by decide) (by decide) (by decide)⟩

/-- `NewClientPool` normalises its arguments: `1 <= minCap <= maxCap` and
`0 < minIvl <= maxIvl`; the capacity and the interval are the stored (wrapped)
minima. -/
theorem NewClientPool_bounds (minCap maxCap minIvl maxIvl : Int) (tlsCode : String) :
    1 ≤ (NewClientPool minCap maxCap minIvl maxIvl tlsCode).minCap ∧
    (NewClientPool minCap maxCap minIvl maxIvl tlsCode).minCap ≤
      (NewClientPool minCap maxCap minIvl maxIvl tlsCode).maxCap ∧
    0 < (NewClientPool minCap maxCap minIvl maxIvl tlsCode).minIvl ∧
    (NewClientPool minCap maxCap minIvl maxIvl tlsCode).minIvl ≤
      (NewClientPool minCap maxCap minIvl maxIvl tlsCode).maxIvl ∧
    (NewClientPool minCap maxCap minIvl maxIvl tlsCode).capacity =
      wrap32 (NewClientPool minCap maxCap minIvl maxIvl tlsCode).minCap ∧
    (NewClientPool minCap maxCap minIvl maxIvl tlsCode).interval =
      wrap64 (NewClientPool minCap maxCap minIvl maxIvl tlsCode).minIvl := by
  simp only [NewClientPool, defaultMinCap, defaultMaxCap, defaultMinIvl, defaultMaxIvl]
  refine ⟨?_, ?_, ?_, ?_, ?_, ?_⟩ <;> first | trivial | (split_ifs <;> omega)

/-- Without overflow of `interval - step` and `interval + step`,
`adjustInterval` keeps the interval within `[minIvl, maxIvl]`. -/
theorem adjustInterval_bounds (p : Pool) (h1 : p.minIvl ≤ p.interval)
    (h2 : p.interval ≤ p.maxIvl) (hlo : InInt64 (p.interval - intervalAdjustStep))
    (hhi : InInt64 (p.interval + intervalAdjustStep)) :
    p.minIvl ≤ (adjustInterval p).interval ∧ (adjustInterval p).interval ≤ p.maxIvl := by
  have e1 := wrap64_of_InInt64 hlo
  have e2 := wrap64_of_InInt64 hhi
  unfold adjustInterval
  simp only [e1, e2]
  unfold intervalAdjustStep
  split_ifs <;> (try simp only) <;> omega

/-- When `minCap` and `maxCap` are `int32` values, `adjustCapacity` keeps the
capacity within `[minCap, maxCap]`. -/
theorem adjustCapacity_bounds (created : Int) (p : Pool) (h1 : p.minCap ≤ p.capacity)
    (h2 : p.capacity ≤ p.maxCap) (hlo : InInt32 p.minCap) (hhi : InInt32 p.maxCap) :
    p.minCap ≤ (adjustCapacity created p).capacity ∧
    (adjustCapacity created p).capacity ≤ p.maxCap := by
  unfold InInt32 at hlo hhi
  unfold adjustCapacity wrap32
  simp only
  split_ifs <;> (try simp only) <;> omega

/-- The capacity stored by `adjustCapacity`, in integer terms, when
`created >= 0`, the capacity is at least 1 and `capacity + 1` is still an
`int32`: the float ratio tests are the exact comparisons of
`created / capacity` with `1/5` and `4/5`. -/
theorem adjustCapacity_eq (created : Int) (p : Pool) (hcr : 0 ≤ created)
    (hcap : 1 ≤ p.capacity) (hhi : p.capacity + 1 < 2 ^ 31) :
    adjustCapacity created p =
      { p with capacity :=
          if 5 * created < p.capacity ∧ p.capacity > p.minCap then p.capacity - 1
          else if 4 * p.capacity < 5 * created ∧ p.capacity < p.maxCap then p.capacity + 1
          else p.capacity } := by
  have e1 : wrap32 (p.capacity + -1) = p.capacity - 1 := by
    unfold wrap32
    omega
  have e2 : wrap32 (p.capacity + 1) = p.capacity + 1 := by
    unfold wrap32
    omega
  unfold adjustCapacity
  simp only [ratioLess_c02 hcr hcap (by omega), ratioGreater_c08 hcr hcap (by omega),
    decide_eq_true_eq, e1]
  by_cases h1 : 5 * created < p.capacity ∧ p.capacity > p.minCap
  · have h2 : ¬ (4 * p.capacity < 5 * created ∧ p.capacity < p.maxCap) := by
      intro h
      omega
    rw [if_pos h1, if_neg h2, if_pos h1]
  · by_cases h2 : 4 * p.capacity < 5 * created ∧ p.capacity < p.maxCap
    · rw [if_neg h1, if_pos h2, if_neg h1, if_pos h2, e2]
    · rw [if_neg h1, if_neg h2, if_neg h1, if_neg h2]

/-- For arguments whose normalised maxima leave room for one step,
`NewClientPool` builds a pool whose controller state is within its bounds, with
`capacity = minCap` and `interval = minIvl`. -/
theorem NewClientPool_ControllerInv (minCap maxCap minIvl maxIvl : Int) (tlsCode : String)
    (h1 : minCap < 2 ^ 31) (h2 : maxCap < 2 ^ 31)
    (h3 : minIvl + intervalAdjustStep < 2 ^ 63) (h4 : maxIvl + intervalAdjustStep < 2 ^ 63) :
    ControllerInv (NewClientPool minCap maxCap minIvl maxIvl tlsCode) ∧
    (NewClientPool minCap maxCap minIvl maxIvl tlsCode).capacity =
      (NewClientPool minCap maxCap minIvl maxIvl tlsCode).minCap ∧
    (NewClientPool minCap maxCap minIvl maxIvl tlsCode).interval =
      (NewClientPool minCap maxCap minIvl maxIvl tlsCode).minIvl := by
  unfold ControllerInv
  unfold intervalAdjustStep at *
  simp only [NewClientPool, defaultMinCap, defaultMaxCap, defaultMinIvl, defaultMaxIvl, wrap32,
    wrap64]
  refine ⟨⟨?_, ?_, ?_, ?_, ?_, ?_, ?_, ?_⟩, ?_, ?_⟩ <;> split_ifs <;> omega

/-- `adjustInterval` preserves `ControllerInv`, whatever the queue holds. -/
theorem adjustInterval_ControllerInv (p : Pool) (h : ControllerInv p) :
    ControllerInv (adjustInterval p) := by
  obtain ⟨a1, a2, a3, a4, a5, a6, a7, a8⟩ := h
  obtain ⟨_, _, f3, f4, f5, f6, f7⟩ := adjustInterval_fields p
  have hb := adjustInterval_bounds p a6 a7
    (by unfold InInt64; unfold intervalAdjustStep at *; omega)
    (by unfold InInt64; unfold intervalAdjustStep at *; omega)
  unfold ControllerInv
  rw [f3, f4, f5, f6, f7]
  exact ⟨a1, a2, a3, a4, a5, hb.1, hb.2, a8⟩

/-- `adjustCapacity` preserves `ControllerInv`, whatever `created` is. -/
theorem adjustCapacity_ControllerInv (created : Int) (p : Pool) (h : ControllerInv p) :
    ControllerInv (adjustCapacity created p) := by
  obtain ⟨a1, a2, a3, a4, a5, a6, a7, a8⟩ := h
  obtain ⟨_, _, f3, f4, f5, f6, f7⟩ := adjustCapacity_fields created p
  have hb := adjustCapacity_bounds created p a2 a3 (by unfold InInt32; omega)
    (by unfold InInt32; omega)
  unfold ControllerInv
  rw [f3, f4, f5, f6, f7]
  exact ⟨a1, hb.1, hb.2, a4, a5, a6, a7, a8⟩

set_option maxRecDepth 100000 in
/-- C2 (failing input): on the client pool built by
`NewClientPool(2147483647, 2147483648, ...)` the capacity is `2^31 - 1`, below
`maxCap = 2^31`; with `created = 2147483647` the ratio is `1.0 > 0.8`, so
`adjustCapacity` executes `capacity.Add(1)` on the `atomic.Int32`, which wraps
to `-2^31` instead of giving `capacity + 1`.  The two examples of the
specification (capacity 10, created 1 and 9) give 9 and 11. -/
theorem C2_increment_wraps_at_int32_max :
    poolHugeCap.Capacity = 2147483647 ∧ poolHugeCap.maxCap = 2147483648 ∧
    ratioGreater 2147483647 poolHugeCap.capacity c08 = true ∧
    (adjustCapacity 2147483647 poolHugeCap).Capacity = -2147483648 ∧
    (adjustCapacity 1 poolCap10).Capacity = 9 ∧
    (adjustCapacity 9 poolCap10).Capacity = 11 := by
  decide

set_option maxRecDepth 100000 in
/-- C4 (failing input): the client pool built by
`NewClientPool(1, 1, 9223372036854775806ns, 9223372036854775807ns, ...)` has
`Interval() = minIvl`; with one idle connection (queue length 1 = `maxCap`)
`adjustInterval` computes `interval + step`, which overflows `int64`, and stores
the negative result: `Interval()` is then below `minIvl`.  Likewise
`NewClientPool(2147483648, 2147483648, ...)` stores `int32(minCap)`, so the
constructed pool has `Capacity() = -2^31` while `minCap = 2^31`. -/
theorem C4_overflow_leaves_bounds :
    poolLongIvl.minIvl = 9223372036854775806 ∧ poolLongIvl.maxIvl = 9223372036854775807 ∧
    poolLongIvl.Interval = poolLongIvl.minIvl ∧
    poolLongIvl.idChan.len = 1 ∧ poolLongIvl.maxCap = 1 ∧
    (adjustInterval poolLongIvl).Interval = -9223372036754775810 ∧
    (adjustInterval poolLongIvl).Interval < (adjustInterval poolLongIvl).minIvl ∧
    (NewClientPool 2147483648 2147483648 0 0 "0").minCap = 2147483648 ∧
    (NewClientPool 2147483648 2147483648 0 0 "0").Capacity = -2147483648 := by
  decide

/-! ## Concurrent `OutgoingGet` and `IncomingGet` -/

theorem Sys.step_Exclusive (x : ID) (c : Conn) (s s1 : Sys) (a : Act)
    (h : Sys.Exclusive x c s) (hs : s.step x a = some s1) : Sys.Exclusive x c s1 := by
  obtain ⟨pool, out, inc⟩ := s
  unfold Sys.Exclusive at h
  simp only at h
  cases a with
  | outStep =>
    cases out with
    | load =>
      simp only [Sys.step, ConnMap.LoadAndDelete] at hs
      rcases h with ⟨hl, _, hi⟩ | ⟨_, ho, _⟩ | ⟨hl, _, hi⟩
      · simp only [hl, Option.some.injEq] at hs
        subst hs
        exact Or.inr (Or.inl ⟨ConnMap.Load_Delete_self x _, Or.inl rfl, hi⟩)
      · rcases ho with ho | ho <;> cases ho
      · simp only [hl, Option.some.injEq] at hs
        subst hs
        exact Or.inr (Or.inr ⟨ConnMap.Load_Delete_self x _, Or.inr (Or.inl rfl), hi⟩)
    | wait =>
      simp only [Sys.step, Option.some.injEq] at hs
      subst hs
      rcases h with ⟨_, ho, _⟩ | ⟨_, ho, _⟩ | ⟨hl, _, hi⟩
      · cases ho
      · rcases ho with ho | ho <;> cases ho
      · exact Or.inr (Or.inr ⟨hl, Or.inl rfl, hi⟩)
    | recv c0 =>
      simp only [Sys.step] at hs
      cases hr : pool.idChan.recv with
      | none => simp [hr] at hs
      | some r =>
        simp only [hr, Option.some.injEq] at hs
        subst hs
        rcases h with ⟨_, ho, _⟩ | ⟨hl, ho, hi⟩ | ⟨_, ho, _⟩
        · cases ho
        · rcases ho with ho | ho
          · cases ho
            exact Or.inr (Or.inl ⟨hl, Or.inr rfl, hi⟩)
          · cases ho
        · rcases ho with ho | ho | ho <;> cases ho
    | done r => simp [Sys.step] at hs
  | outDeadline =>
    cases out with
    | wait =>
      simp only [Sys.step, Option.some.injEq] at hs
      subst hs
      rcases h with ⟨_, ho, _⟩ | ⟨_, ho, _⟩ | ⟨hl, _, hi⟩
      · cases ho
      · rcases ho with ho | ho <;> cases ho
      · exact Or.inr (Or.inr ⟨hl, Or.inr (Or.inr rfl), hi⟩)
    | load => simp [Sys.step] at hs
    | recv c0 => simp [Sys.step] at hs
    | done r => simp [Sys.step] at hs
  | incStep =>
    cases inc with
    | select =>
      simp only [Sys.step] at hs
      cases hr : pool.idChan.recv with
      | none => simp [hr] at hs
      | some r =>
        simp only [hr, Option.some.injEq] at hs
        subst hs
        rcases h with ⟨hl, ho, _⟩ | ⟨hl, ho, _⟩ | ⟨_, _, hi⟩
        · exact Or.inl ⟨hl, ho, by simp [InPC.returnedID]⟩
        · exact Or.inr (Or.inl ⟨hl, ho, by simp [InPC.returnedID]⟩)
        · cases hi
    | load id =>
      simp only [Sys.step, ConnMap.LoadAndDelete] at hs
      have hC : ¬ (InPC.load id = InPC.done (some (x, c))) := by simp
      by_cases hid : id = x
      · subst hid
        rcases h with ⟨hl, ho, _⟩ | ⟨hl, ho, _⟩ | ⟨_, _, hi⟩
        · simp only [hl, Option.some.injEq] at hs
          subst hs
          exact Or.inr (Or.inr ⟨ConnMap.Load_Delete_self id _, Or.inl ho, rfl⟩)
        · simp only [hl, Option.some.injEq] at hs
          subst hs
          exact Or.inr (Or.inl ⟨ConnMap.Load_Delete_self id _, ho, by simp [InPC.returnedID]⟩)
        · exact absurd hi hC
      · have hne : ConnMap.Load x (ConnMap.Delete id pool.conns) = ConnMap.Load x pool.conns :=
          ConnMap.Load_Delete_of_ne pool.conns hid
        have hret : ∀ c0, (InPC.done (some (id, c0))).returnedID ≠ some x := by
          intro c0
          simp [InPC.returnedID, hid]
        cases hl0 : ConnMap.Load id pool.conns with
        | none =>
          simp only [hl0, Option.some.injEq] at hs
          subst hs
          rcases h with ⟨hl, ho, _⟩ | ⟨hl, ho, _⟩ | ⟨_, _, hi⟩
          · exact Or.inl ⟨hne.trans hl, ho, by simp [InPC.returnedID]⟩
          · exact Or.inr (Or.inl ⟨hne.trans hl, ho, by simp [InPC.returnedID]⟩)
          · exact absurd hi hC
        | some c0 =>
          simp only [hl0, Option.some.injEq] at hs
          subst hs
          rcases h with ⟨hl, ho, _⟩ | ⟨hl, ho, _⟩ | ⟨_, _, hi⟩
          · exact Or.inl ⟨hne.trans hl, ho, hret c0⟩
          · exact Or.inr (Or.inl ⟨hne.trans hl, ho, hret c0⟩)
          · exact absurd hi hC
    | done r => simp [Sys.step] at hs
  | incDeadline =>
    cases inc with
    | select =>
      simp only [Sys.step, Option.some.injEq] at hs
      subst hs
      rcases h with ⟨hl, ho, _⟩ | ⟨hl, ho, _⟩ | ⟨_, _, hi⟩
      · exact Or.inl ⟨hl, ho, by simp [InPC.returnedID]⟩
      · exact Or.inr (Or.inl ⟨hl, ho, by simp [InPC.returnedID]⟩)
      · cases hi
    | load id => simp [Sys.step] at hs
    | done r => simp [Sys.step] at hs

theorem Sys.run_Exclusive (x : ID) (c : Conn) (acts : List Act) (s s1 : Sys)
    (h : Sys.Exclusive x c s) (hs : Sys.run x s acts = some s1) : Sys.Exclusive x c s1 := by
  induction acts generalizing s with
  | nil =>
    simp only [Sys.run, Option.some.injEq] at hs
    subst hs
    exact h
  | cons a rest ih =>
    simp only [Sys.run] at hs
    cases hstep : s.step x a with
    | none => simp [hstep] at hs
    | some s2 =>
      simp only [hstep] at hs
      exact ih s2 (Sys.step_Exclusive x c s s2 a h hstep) hs

/-- C6 (failing input): in the pool `poolOneReg` (the map holds `00000001`,
the queue holds its token) let `IncomingGet` receive the token, `OutgoingGet`
remove the map entry, `IncomingGet` miss the entry and run into its deadline.
Then `IncomingGet` has returned its error, `OutgoingGet` holds the connection
in front of the receive `<-p.idChan` on an empty channel, and no action of the
system is enabled any more, its own deadline included: the receive is outside
the `select` on `ctx.Done()`, so `OutgoingGet` neither returns the connection
nor fails with its timeout error, and the connection it took out of the map is
never handed to anyone.  `IncomingGet` makes its receive inside the `select`
with the deadline. -/
theorem C6_OutgoingGet_blocks_after_IncomingGet_took_token :
    Sys.run "00000001" (Sys.init poolOneReg) schedStuck =
      some { pool := { poolOneReg with conns := [], idChan := { buf := [], cap := 2 } },
             out := OutPC.recv { fd := 1, tls := false },
             inc := InPC.done none } ∧
    (List.all [Act.outStep, Act.outDeadline, Act.incStep, Act.incDeadline] fun a =>
      (Sys.step "00000001"
        { pool := { poolOneReg with conns := [], idChan := { buf := [], cap := 2 } },
          out := OutPC.recv { fd := 1, tls := false },
          inc := InPC.done none } a).isNone) = true := by
  decide

/-- If `x` is registered with connection `c` when `OutgoingGet(x, _)` and
`IncomingGet(_)` start, then after every schedule of their atomic actions the
entry is in exactly one place: still in the map; or taken by `OutgoingGet`
(about to receive a token, or returned) while `IncomingGet` has not returned
`x`; or returned by `IncomingGet` as `(x, c)` while `OutgoingGet` holds nothing.
So the entry is never returned by both calls. -/
theorem Sys.run_init_Exclusive (p : Pool) (x : ID) (c : Conn) (acts : List Act)
    (s : Sys) (hx : ConnMap.Load x p.conns = some c)
    (hrun : Sys.run x (Sys.init p) acts = some s) : Sys.Exclusive x c s :=
  Sys.run_Exclusive x c acts (Sys.init p) s
    (Or.inl ⟨hx, rfl, by simp [Sys.init, InPC.returnedID]⟩) hrun

/-- On `poolOneReg`, when `IncomingGet` takes the token and the entry first, it
returns `(00000001, connection 1)` and `OutgoingGet` fails its lookup and
returns the error at its deadline. -/
theorem Sys.run_IncomingGet_first :
    Sys.run "00000001" (Sys.init poolOneReg) schedIncomingWins =
      some { pool := { poolOneReg with conns := [], idChan := { buf := [], cap := 2 } },
             out := OutPC.done none,
             inc := InPC.done (some ("00000001", { fd := 1, tls := false })) } := by
  decide

end NodePass
